import Mathlib

/-!
CXXCircularBuffer: a shallow embedding of `CircularBuffer<T, Size>`.

Source: `include/CXXCircularBuffer/CircularBuffer.hpp`.

* `std::size_t` values are natural numbers; every `size_t` addition and
  subtraction of the source is taken modulo `2 ^ 64` (`szAdd`, `szSub`).
* `ptrdiff_t` values are integers; where the source adds a `ptrdiff_t` to a
  `std::size_t`, or takes it modulo `Size`, it is first converted to
  `std::size_t`, that is taken modulo `2 ^ 64` (`toSizeT`).
* The template parameter `Size` is a parameter of the state type.
* The storage `buffer_` (a `new T[Size]`) is a list; reading a slot outside
  the list is undefined behaviour in the source and `none` here.
* The operator `%` is only meaningful for `Size ≥ 1`.
-/

set_option autoImplicit false

namespace CXXCircularBuffer

/-! ## `std::size_t` arithmetic -/

/-- The number of values of `std::size_t` (64 bit). -/
abbrev SIZE_T_MOD : Nat := 18446744073709551616

/-- Addition of two `std::size_t` values. -/
def szAdd (a b : Nat) : Nat := (a + b) % SIZE_T_MOD

/-- Subtraction of two `std::size_t` values (operands below `2 ^ 64`). -/
def szSub (a b : Nat) : Nat := (a + SIZE_T_MOD - b) % SIZE_T_MOD

/-! ## The container -/

/-- The data members of `CircularBuffer<T, Size>`: `buffer_`, `head_`, `tail_`. -/
structure CircularBuffer (α : Type) (Size : Nat) where
  buffer_ : List α
  head_ : Nat
  tail_ : Nat
deriving DecidableEq

namespace CircularBuffer

variable {α : Type} {Size : Nat}

/-- The constructor `CircularBuffer()`: `head_(0), tail_(0)` and a storage
block whose slots hold whatever `new T[Size]` left there (`storage`). -/
def fresh (storage : List α) : CircularBuffer α Size :=
  { buffer_ := storage, head_ := 0, tail_ := 0 }

/-- The member `size()`. -/
def size (b : CircularBuffer α Size) : Nat :=
  if b.head_ ≥ b.tail_ then szSub b.head_ b.tail_
  else szAdd (szSub Size b.tail_) b.head_

/-- The member `capacity()`. -/
def capacity (_b : CircularBuffer α Size) : Nat := Size

/-- The member `max_size()`. -/
def max_size (_b : CircularBuffer α Size) : Nat := Size

/-- The member `empty()`. -/
def empty (b : CircularBuffer α Size) : Bool := b.head_ == b.tail_

/-- The member `front()`: `return buffer_[head_];`. -/
def front (b : CircularBuffer α Size) : Option α := b.buffer_[b.head_]?

/-- The member `back()`: `return buffer_[tail_];`. -/
def back (b : CircularBuffer α Size) : Option α := b.buffer_[b.tail_]?

/-- The member `clear()`. -/
def clear (b : CircularBuffer α Size) : CircularBuffer α Size :=
  { b with head_ := 0, tail_ := 0 }

/-- The member `push_back(item)`. -/
def push_back (b : CircularBuffer α Size) (item : α) : CircularBuffer α Size :=
  let buf := b.buffer_.set b.head_ item
  let head := szAdd b.head_ 1 % Size
  if head == b.tail_ then
    { buffer_ := buf, head_ := head, tail_ := szAdd b.tail_ 1 % Size }
  else
    { buffer_ := buf, head_ := head, tail_ := b.tail_ }

/-- The member `pop_front()`. -/
def pop_front (b : CircularBuffer α Size) : CircularBuffer α Size :=
  if !b.empty then { b with tail_ := szAdd b.tail_ 1 % Size } else b

/-- The member `operator[](index)`: `return buffer_[index];`. -/
def operator_subscript (b : CircularBuffer α Size) (index : Nat) : Option α :=
  b.buffer_[index]?

end CircularBuffer

/-! ## The iterators -/

/-- The data members of `CircularBuffer::const_iterator`. The pointer
`buffer_` is represented by the buffer it points to. -/
structure const_iterator (α : Type) (Size : Nat) where
  buffer_ : CircularBuffer α Size
  index_ : Nat
  position_ : Nat
deriving DecidableEq

/-- The data members of `CircularBuffer::const_reverse_iterator`. -/
structure const_reverse_iterator (α : Type) (Size : Nat) where
  buffer_ : CircularBuffer α Size
  index_ : Nat
  position_ : Nat
deriving DecidableEq

namespace const_iterator

variable {α : Type} {Size : Nat}

/-- Dereference, `operator*`: `buffer_->buffer_[index_]`. -/
def deref (it : const_iterator α Size) : Option α :=
  it.buffer_.buffer_[it.index_]?

/-- Pre-increment, `operator++()`. -/
def incr (it : const_iterator α Size) : const_iterator α Size :=
  { it with index_ := szAdd it.index_ 1 % Size, position_ := szAdd it.position_ 1 }

/-- Equality, `operator==`: same buffer and same logical position. The pointer
comparison is the comparison of the buffers pointed to, which is exact for two
iterators taken from one buffer object. -/
def eq [DecidableEq α] (it other : const_iterator α Size) : Bool :=
  decide (it.buffer_ = other.buffer_) && it.position_ == other.position_

/-- Inequality, `operator!=`. -/
def ne [DecidableEq α] (it other : const_iterator α Size) : Bool :=
  !(it.eq other)

/-- The loop `for (; it != last; ++it) out.push_back(*it);` run for at most
`fuel` iterations: `none` when the fuel runs out or a dereference leaves the
storage. -/
def collect [DecidableEq α] :
    Nat → const_iterator α Size → const_iterator α Size → Option (List α)
  | 0, _, _ => none
  | fuel + 1, it, last =>
    if it.ne last then
      match it.deref, collect fuel it.incr last with
      | some v, some rest => some (v :: rest)
      | _, _ => none
    else some []

end const_iterator

namespace const_reverse_iterator

variable {α : Type} {Size : Nat}

/-- Dereference, `operator*`: `buffer_->buffer_[index_]`. -/
def deref (it : const_reverse_iterator α Size) : Option α :=
  it.buffer_.buffer_[it.index_]?

/-- Pre-increment, `operator++()`: one slot backwards through the storage. -/
def incr (it : const_reverse_iterator α Size) : const_reverse_iterator α Size :=
  { it with
    index_ := if it.index_ == 0 then szSub Size 1 else szSub it.index_ 1,
    position_ := szAdd it.position_ 1 }

/-- Equality, `operator==`: same buffer and same logical position. -/
def eq [DecidableEq α] (it other : const_reverse_iterator α Size) : Bool :=
  decide (it.buffer_ = other.buffer_) && it.position_ == other.position_

/-- Inequality, `operator!=`. -/
def ne [DecidableEq α] (it other : const_reverse_iterator α Size) : Bool :=
  !(it.eq other)

/-- The loop `for (; rit != last; ++rit) out.push_back(*rit);` run for at
most `fuel` iterations. -/
def collect [DecidableEq α] :
    Nat → const_reverse_iterator α Size → const_reverse_iterator α Size →
      Option (List α)
  | 0, _, _ => none
  | fuel + 1, it, last =>
    if it.ne last then
      match it.deref, collect fuel it.incr last with
      | some v, some rest => some (v :: rest)
      | _, _ => none
    else some []

end const_reverse_iterator

namespace CircularBuffer

variable {α : Type} {Size : Nat}

/-- The member `begin()`: `const_iterator(this, tail_, 0)`. -/
def begin (b : CircularBuffer α Size) : const_iterator α Size :=
  { buffer_ := b, index_ := b.tail_, position_ := 0 }

/-- The member `end()`: `const_iterator(this, head_, size())`. -/
def end_ (b : CircularBuffer α Size) : const_iterator α Size :=
  { buffer_ := b, index_ := b.head_, position_ := b.size }

/-- The member `rbegin()`. -/
def rbegin (b : CircularBuffer α Size) : const_reverse_iterator α Size :=
  let last_index := if b.head_ == 0 then szSub Size 1 else szSub b.head_ 1
  { buffer_ := b, index_ := last_index, position_ := 0 }

/-- The member `rend()`. -/
def rend (b : CircularBuffer α Size) : const_reverse_iterator α Size :=
  let before_tail := if b.tail_ == 0 then szSub Size 1 else szSub b.tail_ 1
  { buffer_ := b, index_ := before_tail, position_ := b.size }

/-- Forward iteration `for (it = begin(); it != end(); ++it)`, as the list of
the values read. The loop body runs `size()` times, so `size() + 1` rounds of
fuel are enough (`collect_fuel` shows more fuel changes nothing). -/
def toList [DecidableEq α] (b : CircularBuffer α Size) : Option (List α) :=
  const_iterator.collect (b.size + 1) b.begin b.end_

/-- Reverse iteration `for (rit = rbegin(); rit != rend(); ++rit)`. -/
def toListRev [DecidableEq α] (b : CircularBuffer α Size) : Option (List α) :=
  const_reverse_iterator.collect (b.size + 1) b.rbegin b.rend

/-- A run of `push_back` calls, first value first. -/
def pushAll (b : CircularBuffer α Size) (vs : List α) : CircularBuffer α Size :=
  vs.foldl push_back b

/-- The caller loop `repeat n times: read front(), then pop_front()`; the
values read, and the buffer left behind. -/
def drain : Nat → CircularBuffer α Size → List (Option α) × CircularBuffer α Size
  | 0, b => ([], b)
  | n + 1, b =>
    let r := drain n b.pop_front
    (b.front :: r.1, r.2)

/-- The states a program can reach: a freshly constructed buffer over a
storage block of `Size` slots, then any `push_back`, `pop_front`, `clear`. -/
inductive Reachable : CircularBuffer α Size → Prop
  | fresh (storage : List α) (h : storage.length = Size) :
      Reachable (CircularBuffer.fresh storage)
  | push_back (b : CircularBuffer α Size) (item : α) :
      Reachable b → Reachable (b.push_back item)
  | pop_front (b : CircularBuffer α Size) :
      Reachable b → Reachable b.pop_front
  | clear (b : CircularBuffer α Size) :
      Reachable b → Reachable b.clear

/-- The representation invariant: `Size` storage slots, both indices inside. -/
def Inv (b : CircularBuffer α Size) : Prop :=
  b.buffer_.length = Size ∧ b.head_ < Size ∧ b.tail_ < Size

/-- The logical window in closed form: `size()` slots of the storage read
circularly from `tail_`. -/
def window (b : CircularBuffer α Size) : List α :=
  (b.buffer_.rotate b.tail_).take b.size

end CircularBuffer

/-! ## `ptrdiff_t` and the offset operators of the iterators -/

/-- The first value above `PTRDIFF_MAX` (64 bit), `2 ^ 63`. -/
abbrev PTRDIFF_LIMIT : Nat := 9223372036854775808

/-- Conversion of a `ptrdiff_t` value to `std::size_t`, as the usual
arithmetic conversions do when a `ptrdiff_t` meets a `std::size_t` operand:
the value modulo `2 ^ 64`. -/
def toSizeT (n : Int) : Nat := (n % (SIZE_T_MOD : Int)).toNat

/-- Conversion of a `std::size_t` value to `ptrdiff_t` (two's complement). -/
def toPtrdiff (x : Nat) : Int :=
  if x < PTRDIFF_LIMIT then (x : Int) else (x : Int) - (SIZE_T_MOD : Int)

namespace const_iterator

variable {α : Type} {Size : Nat}

/-- Pre-decrement, `operator--()`. -/
def decr (it : const_iterator α Size) : const_iterator α Size :=
  { it with
    index_ := if it.index_ == 0 then szSub Size 1 else szSub it.index_ 1,
    position_ := szSub it.position_ 1 }

/-- The compound `operator+=(difference_type n)`:
`position_ += n; index_ = (index_ + n) % Size;` with `n` converted to
`std::size_t` in both sums. -/
def plus_assign (it : const_iterator α Size) (n : Int) : const_iterator α Size :=
  { it with
    position_ := szAdd it.position_ (toSizeT n),
    index_ := szAdd it.index_ (toSizeT n) % Size }

/-- The compound `operator-=(difference_type n)`: `return *this += (-n);`.
The negation is taken in the integers; its conversion to `std::size_t` is the
two's complement negation. -/
def minus_assign (it : const_iterator α Size) (n : Int) : const_iterator α Size :=
  it.plus_assign (-n)

/-- The binary `operator+(difference_type n)`: a copy, then `+=`. -/
def plus (it : const_iterator α Size) (n : Int) : const_iterator α Size :=
  it.plus_assign n

/-- The binary `operator-(difference_type n)`: a copy, then `-=`. -/
def minus (it : const_iterator α Size) (n : Int) : const_iterator α Size :=
  it.minus_assign n

/-- The difference `operator-(const const_iterator &other)`:
`position_ - other.position_`, returned as `difference_type`. -/
def diff (it other : const_iterator α Size) : Int :=
  toPtrdiff (szSub it.position_ other.position_)

/-- The caller loop `for (k = 0; k < n; ++k) ++it;`. -/
def incrN : Nat → const_iterator α Size → const_iterator α Size
  | 0, it => it
  | n + 1, it => incrN n it.incr

/-- The caller loop `for (k = 0; k < n; ++k) --it;`. -/
def decrN : Nat → const_iterator α Size → const_iterator α Size
  | 0, it => it
  | n + 1, it => decrN n it.decr

end const_iterator

namespace const_reverse_iterator

variable {α : Type} {Size : Nat}

/-- Pre-decrement, `operator--()`: one slot forwards through the storage. -/
def decr (it : const_reverse_iterator α Size) : const_reverse_iterator α Size :=
  { it with index_ := szAdd it.index_ 1 % Size, position_ := szSub it.position_ 1 }

/-- The compound `operator+=(difference_type n)`:
`position_ += n; index_ = (index_ - n % Size + Size) % Size;` with `n`
converted to `std::size_t` in the sum and in `n % Size`. -/
def plus_assign (it : const_reverse_iterator α Size) (n : Int) :
    const_reverse_iterator α Size :=
  { it with
    position_ := szAdd it.position_ (toSizeT n),
    index_ := szAdd (szSub it.index_ (toSizeT n % Size)) Size % Size }

/-- The compound `operator-=(difference_type n)`: `return *this += (-n);`. -/
def minus_assign (it : const_reverse_iterator α Size) (n : Int) :
    const_reverse_iterator α Size :=
  it.plus_assign (-n)

/-- The binary `operator+(difference_type n)`: a copy, then `+=`. -/
def plus (it : const_reverse_iterator α Size) (n : Int) : const_reverse_iterator α Size :=
  it.plus_assign n

/-- The binary `operator-(difference_type n)`: a copy, then `-=`. -/
def minus (it : const_reverse_iterator α Size) (n : Int) : const_reverse_iterator α Size :=
  it.minus_assign n

/-- The difference `operator-(const const_reverse_iterator &other)`. -/
def diff (it other : const_reverse_iterator α Size) : Int :=
  toPtrdiff (szSub it.position_ other.position_)

/-- The caller loop `for (k = 0; k < n; ++k) ++rit;`. -/
def incrN : Nat → const_reverse_iterator α Size → const_reverse_iterator α Size
  | 0, it => it
  | n + 1, it => incrN n it.incr

end const_reverse_iterator

namespace CircularBuffer

variable {α : Type} {Size : Nat}

/-- The constructor seen as an operation that may fail. The source has no
failure path in it (no test of `Size`, no `throw`, no `static_assert`), so
the result is always a buffer. -/
def construct (storage : List α) : Option (CircularBuffer α Size) :=
  some (fresh storage)

/-- One mutating call on a buffer. -/
inductive Op (α : Type) where
  | push_back (item : α) : Op α
  | pop_front : Op α
  | clear : Op α
deriving DecidableEq

/-- The effect of one mutating call. -/
def apply (b : CircularBuffer α Size) : Op α → CircularBuffer α Size
  | Op.push_back item => b.push_back item
  | Op.pop_front => b.pop_front
  | Op.clear => b.clear

/-- A sequence of mutating calls, first call first. -/
def run (b : CircularBuffer α Size) (ops : List (Op α)) : CircularBuffer α Size :=
  ops.foldl apply b

/-- The index predicate of the data model: `0 <= head, tail < Capacity`. -/
def IdxInv (b : CircularBuffer α Size) : Prop :=
  b.head_ < Size ∧ b.tail_ < Size

end CircularBuffer

/-! ## The bounded queue that the buffer is compared with -/

/-- The abstract model, one call, in the words of the refinement claim:
`clear` empties the list, `pop_front` drops the first element if there is one,
and `push_back(v)` appends `v` and then drops the first element if the length
exceeds `C - 1`. -/
def specStep {α : Type} (C : Nat) (l : List α) : CircularBuffer.Op α → List α
  | CircularBuffer.Op.clear => []
  | CircularBuffer.Op.pop_front => l.drop 1
  | CircularBuffer.Op.push_back v =>
    if (l ++ [v]).length > C - 1 then (l ++ [v]).drop 1 else l ++ [v]

/-- The abstract model on a sequence of calls, starting from the empty list. -/
def specRun {α : Type} (C : Nat) (ops : List (CircularBuffer.Op α)) : List α :=
  ops.foldl (specStep C) []

/-! ## Arithmetic of `std::size_t` below the wrap -/

theorem szAdd_of_lt {a b : Nat} (h : a + b < SIZE_T_MOD) : szAdd a b = a + b := by
  unfold szAdd
  exact Nat.mod_eq_of_lt h

theorem szSub_of_le {a b : Nat} (hb : b ≤ a) (ha : a < SIZE_T_MOD) : szSub a b = a - b := by
  unfold szSub
  have h1 : a + SIZE_T_MOD - b = (a - b) + SIZE_T_MOD := by omega
  rw [h1, Nat.add_mod_right]
  exact Nat.mod_eq_of_lt (by omega)

theorem szSub_self (a : Nat) : szSub a a = 0 := by
  unfold szSub
  rw [Nat.add_sub_cancel_left]
  exact Nat.mod_self _

/-- One slot backwards modulo `S`, as the source writes it with a test for 0. -/
theorem pred_mod {S m : Nat} (hS : 0 < S) (hm : 0 < m) :
    (if m % S = 0 then S - 1 else m % S - 1) = (m - 1) % S := by
  obtain ⟨k, rfl⟩ : ∃ k, m = k + 1 := ⟨m - 1, by omega⟩
  have hr : k % S < S := Nat.mod_lt _ hS
  have hk : (k + 1) % S = (k % S + 1) % S := (Nat.mod_add_mod k S 1).symm
  rw [Nat.add_sub_cancel, hk]
  rcases Nat.lt_or_ge (k % S + 1) S with h | h
  · rw [Nat.mod_eq_of_lt h]
    simp
  · have h2 : k % S + 1 = S := by omega
    rw [h2, Nat.mod_self]
    simp
    omega

namespace CircularBuffer

variable {α : Type} {Size : Nat}

/-! ## The representation invariant -/

theorem Inv.pos {b : CircularBuffer α Size} (h : Inv b) : 0 < Size := by
  have := h.2.1
  omega

theorem inv_fresh (storage : List α) (h : storage.length = Size) (hS : 0 < Size) :
    Inv (fresh storage : CircularBuffer α Size) :=
  ⟨h, hS, hS⟩

theorem inv_push_back {b : CircularBuffer α Size} (h : Inv b) (item : α) :
    Inv (b.push_back item) := by
  have hS := h.pos
  obtain ⟨hl, _, ht⟩ := h
  unfold push_back
  dsimp only
  split
  · exact ⟨by simpa using hl, Nat.mod_lt _ hS, Nat.mod_lt _ hS⟩
  · exact ⟨by simpa using hl, Nat.mod_lt _ hS, ht⟩

theorem inv_pop_front {b : CircularBuffer α Size} (h : Inv b) : Inv b.pop_front := by
  have hS := h.pos
  unfold pop_front
  split
  · exact ⟨h.1, h.2.1, Nat.mod_lt _ hS⟩
  · exact h

theorem inv_clear {b : CircularBuffer α Size} (h : Inv b) : Inv b.clear :=
  ⟨h.1, h.pos, h.pos⟩

theorem Reachable.inv {b : CircularBuffer α Size} (hS : 0 < Size) (h : Reachable b) :
    Inv b := by
  induction h with
  | fresh storage hl => exact inv_fresh storage hl hS
  | push_back b item _ ih => exact inv_push_back ih item
  | pop_front b _ ih => exact inv_pop_front ih
  | clear b _ ih => exact inv_clear ih

theorem reachable_pushAll {b : CircularBuffer α Size} (h : Reachable b) (vs : List α) :
    Reachable (b.pushAll vs) := by
  induction vs generalizing b with
  | nil => exact h
  | cons v vs ih => exact ih (Reachable.push_back b v h)

/-! ## `size()` under the invariant -/

theorem size_eq {b : CircularBuffer α Size} (h : Inv b) (hW : Size < SIZE_T_MOD) :
    b.size = if b.tail_ ≤ b.head_ then b.head_ - b.tail_
      else Size - b.tail_ + b.head_ := by
  obtain ⟨_, hh, ht⟩ := h
  unfold size
  split
  · exact szSub_of_le (by assumption) (by omega)
  · rw [szSub_of_le (by omega) hW, szAdd_of_lt (by omega)]

theorem size_lt {b : CircularBuffer α Size} (h : Inv b) (hW : Size < SIZE_T_MOD) :
    b.size < Size := by
  rw [size_eq h hW]
  obtain ⟨_, hh, ht⟩ := h
  split <;> omega

/-- The write index is `size()` slots after the read index. -/
theorem tail_add_size {b : CircularBuffer α Size} (h : Inv b) (hW : Size < SIZE_T_MOD) :
    (b.tail_ + b.size) % Size = b.head_ := by
  rw [size_eq h hW]
  obtain ⟨_, hh, ht⟩ := h
  split
  · rw [Nat.add_sub_cancel' (by assumption)]
    exact Nat.mod_eq_of_lt hh
  · have : b.tail_ + (Size - b.tail_ + b.head_) = b.head_ + Size := by omega
    rw [this, Nat.add_mod_right]
    exact Nat.mod_eq_of_lt hh

end CircularBuffer

/-! ## Circular reads of a list -/

theorem take_rotate_succ {α : Type} (l : List α) (i n : Nat) (hi : i < l.length)
    (hn : n + 1 ≤ l.length) :
    (l.rotate i).take (n + 1) = l[i] :: (l.rotate ((i + 1) % l.length)).take n := by
  rw [List.rotate_mod, ← List.rotate_rotate]
  have hlen : (l.rotate i).length = l.length := List.length_rotate l i
  have h0 : 0 < (l.rotate i).length := by omega
  have hget : (l.rotate i)[0] = l[i] := by
    rw [List.getElem_rotate]
    simp [Nat.mod_eq_of_lt hi]
  generalize l.rotate i = r at hlen h0 hget
  cases r with
  | nil => simp at h0
  | cons a t =>
    simp only [List.getElem_cons_zero] at hget
    simp only [List.length_cons] at hlen
    rw [List.rotate_cons_succ, List.rotate_zero, List.take_succ_cons, hget,
      List.take_append_of_le_length (by omega)]

theorem take_succ_reverse_rotate {α : Type} (l : List α) (t n : Nat) (hn : n < l.length)
    (hi : (t + n) % l.length < l.length) :
    ((l.rotate t).take (n + 1)).reverse
      = l[(t + n) % l.length] :: ((l.rotate t).take n).reverse := by
  have hlen : n < (l.rotate t).length := by rw [List.length_rotate]; exact hn
  rw [List.take_succ, List.getElem?_eq_getElem hlen, List.getElem_rotate]
  simp [Nat.add_comm]

/-! ## The two traversal loops in closed form -/

namespace const_iterator

variable {α : Type} {Size : Nat}

theorem collect_rotate [DecidableEq α] (buf : CircularBuffer α Size)
    (hl : buf.buffer_.length = Size) (hS : Size < SIZE_T_MOD)
    (last : const_iterator α Size) (hlast : last.buffer_ = buf) :
    ∀ (n fuel i p : Nat), n < fuel → n ≤ Size → i < Size →
      last.position_ = p + n → p + n < SIZE_T_MOD →
      collect fuel { buffer_ := buf, index_ := i, position_ := p } last
        = some ((buf.buffer_.rotate i).take n) := by
  intro n
  induction n with
  | zero =>
    intro fuel i p hf _ _ hp _
    obtain ⟨f, rfl⟩ : ∃ f, fuel = f + 1 := ⟨fuel - 1, by omega⟩
    simp [collect, ne, eq, hlast, hp]
  | succ n ih =>
    intro fuel i p hf hn hi hp hW
    obtain ⟨f, rfl⟩ : ∃ f, fuel = f + 1 := ⟨fuel - 1, by omega⟩
    have hcond : ne { buffer_ := buf, index_ := i, position_ := p } last = true := by
      simp only [ne, eq, hlast, decide_True, Bool.true_and, Bool.not_eq_true', beq_eq_false_iff_ne]
      omega
    have hib : i < buf.buffer_.length := by omega
    have hderef : deref { buffer_ := buf, index_ := i, position_ := p }
        = some buf.buffer_[i] :=
      List.getElem?_eq_getElem hib
    have hincr : incr { buffer_ := buf, index_ := i, position_ := p }
        = { buffer_ := buf, index_ := (i + 1) % Size, position_ := p + 1 } := by
      simp only [incr, szAdd_of_lt (show i + 1 < SIZE_T_MOD by omega),
        szAdd_of_lt (show p + 1 < SIZE_T_MOD by omega)]
    have hrec := ih f ((i + 1) % Size) (p + 1) (by omega) (by omega)
      (Nat.mod_lt _ (by omega)) (by omega) (by omega)
    have htk := take_rotate_succ buf.buffer_ i n (by omega) (by omega)
    simp only [hl] at htk
    rw [collect, if_pos hcond, hderef, hincr, hrec, htk]

end const_iterator

namespace const_reverse_iterator

variable {α : Type} {Size : Nat}

theorem rcollect_rotate [DecidableEq α] (buf : CircularBuffer α Size)
    (hl : buf.buffer_.length = Size) (hS : Size < SIZE_T_MOD)
    (last : const_reverse_iterator α Size) (hlast : last.buffer_ = buf) (t : Nat) :
    ∀ (n fuel i p : Nat), n < fuel → n < Size → (0 < n → i = (t + n - 1) % Size) →
      last.position_ = p + n → p + n < SIZE_T_MOD →
      collect fuel { buffer_ := buf, index_ := i, position_ := p } last
        = some ((buf.buffer_.rotate t).take n).reverse := by
  intro n
  induction n with
  | zero =>
    intro fuel i p hf _ _ hp _
    obtain ⟨f, rfl⟩ : ∃ f, fuel = f + 1 := ⟨fuel - 1, by omega⟩
    simp [collect, ne, eq, hlast, hp]
  | succ n ih =>
    intro fuel i p hf hn hi hp hW
    obtain ⟨f, rfl⟩ : ∃ f, fuel = f + 1 := ⟨fuel - 1, by omega⟩
    have hSpos : 0 < Size := by omega
    have hi' : i = (t + n) % Size := hi (by omega)
    subst hi'
    have hiS : (t + n) % Size < Size := Nat.mod_lt _ hSpos
    have hcond : ne { buffer_ := buf, index_ := (t + n) % Size, position_ := p } last
        = true := by
      simp only [ne, eq, hlast, decide_True, Bool.true_and, Bool.not_eq_true', beq_eq_false_iff_ne]
      omega
    have hib : (t + n) % Size < buf.buffer_.length := by omega
    have hderef : deref { buffer_ := buf, index_ := (t + n) % Size, position_ := p }
        = some buf.buffer_[(t + n) % Size] :=
      List.getElem?_eq_getElem hib
    have hincr : incr { buffer_ := buf, index_ := (t + n) % Size, position_ := p }
        = { buffer_ := buf,
            index_ := if (t + n) % Size = 0 then Size - 1 else (t + n) % Size - 1,
            position_ := p + 1 } := by
      by_cases h0 : (t + n) % Size = 0
      · simp [incr, h0, szSub_of_le (show 1 ≤ Size by omega) hS,
          szAdd_of_lt (show p + 1 < SIZE_T_MOD by omega)]
      · simp [incr, h0, szAdd_of_lt (show p + 1 < SIZE_T_MOD by omega),
          szSub_of_le (show 1 ≤ (t + n) % Size by omega)
            (show (t + n) % Size < SIZE_T_MOD by omega)]
    have hrec := ih f (if (t + n) % Size = 0 then Size - 1 else (t + n) % Size - 1)
      (p + 1) (by omega) (by omega)
      (fun hn0 => pred_mod hSpos (by omega))
      (by omega) (by omega)
    have htk := take_succ_reverse_rotate buf.buffer_ t n (by omega) (by rw [hl]; exact hiS)
    simp only [hl] at htk
    rw [collect, if_pos hcond, hderef, hincr, hrec, htk]

end const_reverse_iterator

namespace CircularBuffer

variable {α : Type} {Size : Nat}

/-- Forward iteration reads the logical window. -/
theorem collect_begin_end [DecidableEq α] {b : CircularBuffer α Size} (h : Inv b)
    (hW : Size < SIZE_T_MOD) (fuel : Nat) (hf : b.size < fuel) :
    const_iterator.collect fuel b.begin b.end_ = some b.window := by
  have hlt := size_lt h hW
  exact const_iterator.collect_rotate b h.1 hW b.end_ rfl b.size fuel b.tail_ 0 hf
    (by omega) h.2.2 (by simp [end_]) (by omega)

/-- Reverse iteration reads the logical window backwards. -/
theorem collect_rbegin_rend [DecidableEq α] {b : CircularBuffer α Size} (h : Inv b)
    (hW : Size < SIZE_T_MOD) (fuel : Nat) (hf : b.size < fuel) :
    const_reverse_iterator.collect fuel b.rbegin b.rend = some b.window.reverse := by
  have hlt := size_lt h hW
  have hhead := tail_add_size h hW
  have hS := h.pos
  have hidx : (if (b.head_ == 0) = true then szSub Size 1 else szSub b.head_ 1)
      = if b.head_ = 0 then Size - 1 else b.head_ - 1 := by
    by_cases h0 : b.head_ = 0
    · simp [h0, szSub_of_le (show 1 ≤ Size by omega) hW]
    · have := h.2.1
      simp [h0, szSub_of_le (show 1 ≤ b.head_ by omega) (show b.head_ < SIZE_T_MOD by omega)]
  have hrb : b.rbegin
      = ⟨b, if b.head_ = 0 then Size - 1 else b.head_ - 1, 0⟩ := by
    simp only [rbegin, hidx]
  rw [hrb]
  exact const_reverse_iterator.rcollect_rotate b h.1 hW b.rend rfl b.tail_ b.size fuel _ 0 hf
    hlt (fun hn => by rw [← hhead]; exact pred_mod hS (by omega)) (by simp [rend]) (by omega)

theorem toList_eq [DecidableEq α] {b : CircularBuffer α Size} (h : Inv b)
    (hW : Size < SIZE_T_MOD) : b.toList = some b.window :=
  collect_begin_end h hW _ (Nat.lt_succ_self _)

theorem toListRev_eq [DecidableEq α] {b : CircularBuffer α Size} (h : Inv b)
    (hW : Size < SIZE_T_MOD) : b.toListRev = some b.window.reverse :=
  collect_rbegin_rend h hW _ (Nat.lt_succ_self _)

/-- More fuel than `size()` rounds never changes what the forward loop reads. -/
theorem collect_fuel [DecidableEq α] {b : CircularBuffer α Size} (h : Inv b)
    (hW : Size < SIZE_T_MOD) (fuel : Nat) (hf : b.size < fuel) :
    const_iterator.collect fuel b.begin b.end_ = b.toList := by
  rw [toList_eq h hW, collect_begin_end h hW fuel hf]

/-- More fuel than `size()` rounds never changes what the reverse loop reads. -/
theorem collect_fuel_rev [DecidableEq α] {b : CircularBuffer α Size} (h : Inv b)
    (hW : Size < SIZE_T_MOD) (fuel : Nat) (hf : b.size < fuel) :
    const_reverse_iterator.collect fuel b.rbegin b.rend = b.toListRev := by
  rw [toListRev_eq h hW, collect_rbegin_rend h hW fuel hf]

theorem length_window {b : CircularBuffer α Size} (h : Inv b) (hW : Size < SIZE_T_MOD) :
    b.window.length = b.size := by
  have hlt := size_lt h hW
  simp only [window, List.length_take, List.length_rotate, h.1]
  omega

end CircularBuffer

namespace CircularBuffer

variable {α : Type} {Size : Nat}

/-! ## `pop_front()` on the logical window -/

theorem pop_front_of_not_empty {b : CircularBuffer α Size} (hne : b.empty = false) :
    b.pop_front = { b with tail_ := szAdd b.tail_ 1 % Size } := by
  simp [pop_front, hne]

theorem head_ne_tail {b : CircularBuffer α Size} (hne : b.empty = false) :
    b.head_ ≠ b.tail_ := by
  simpa [empty] using hne

theorem tail_pop_front {b : CircularBuffer α Size} (h : Inv b) (hW : Size < SIZE_T_MOD)
    (hne : b.empty = false) :
    b.pop_front.tail_ = if b.tail_ + 1 < Size then b.tail_ + 1 else 0 := by
  have ht := h.2.2
  rw [pop_front_of_not_empty hne]
  simp only [szAdd_of_lt (show b.tail_ + 1 < SIZE_T_MOD by omega)]
  split
  · exact Nat.mod_eq_of_lt (by assumption)
  · have : b.tail_ + 1 = Size := by omega
    rw [this, Nat.mod_self]

theorem size_pop_front {b : CircularBuffer α Size} (h : Inv b) (hW : Size < SIZE_T_MOD)
    (hne : b.empty = false) : b.pop_front.size + 1 = b.size := by
  have hht := head_ne_tail hne
  have htl := tail_pop_front h hW hne
  have hhd : b.pop_front.head_ = b.head_ := by rw [pop_front_of_not_empty hne]
  rw [size_eq (inv_pop_front h) hW, size_eq h hW, htl, hhd]
  obtain ⟨_, hh, ht⟩ := h
  split_ifs <;> omega

theorem window_pop_front {b : CircularBuffer α Size} (h : Inv b) (hW : Size < SIZE_T_MOD)
    (hne : b.empty = false) (hi : b.tail_ < b.buffer_.length) :
    b.window = b.buffer_[b.tail_] :: b.pop_front.window := by
  have hsz := size_pop_front h hW hne
  have hlt := size_lt h hW
  have ht := h.2.2
  have hbuf : b.pop_front.buffer_ = b.buffer_ := by rw [pop_front_of_not_empty hne]
  have htl : b.pop_front.tail_ = (b.tail_ + 1) % b.buffer_.length := by
    rw [pop_front_of_not_empty hne, h.1]
    simp only [szAdd_of_lt (show b.tail_ + 1 < SIZE_T_MOD by omega)]
  unfold window
  rw [← hsz, hbuf, htl]
  exact take_rotate_succ b.buffer_ b.tail_ b.pop_front.size hi (by rw [h.1]; omega)

end CircularBuffer

/-! ## `push_back()` on the logical window -/

theorem succ_mod_lt {S i : Nat} (hi : i < S) :
    (i + 1) % S = if i + 1 < S then i + 1 else 0 := by
  split
  · exact Nat.mod_eq_of_lt (by assumption)
  · have : i + 1 = S := by omega
    rw [this, Nat.mod_self]

theorem add_mod_lt {S a c : Nat} (ha : a < S) (hc : c < S) :
    (a + c) % S = if a + c < S then a + c else a + c - S := by
  split
  · exact Nat.mod_eq_of_lt (by assumption)
  · have h1 : a + c = (a + c - S) + S := by omega
    rw [h1, Nat.add_mod_right, Nat.add_sub_cancel]
    exact Nat.mod_eq_of_lt (by omega)

namespace CircularBuffer

variable {α : Type} {Size : Nat}

theorem push_back_buffer (b : CircularBuffer α Size) (v : α) :
    (b.push_back v).buffer_ = b.buffer_.set b.head_ v := by
  unfold push_back
  dsimp only
  split <;> rfl

theorem push_back_head {b : CircularBuffer α Size} (h : Inv b) (hW : Size < SIZE_T_MOD)
    (v : α) : (b.push_back v).head_ = if b.head_ + 1 < Size then b.head_ + 1 else 0 := by
  have hh := h.2.1
  rw [← succ_mod_lt hh, ← szAdd_of_lt (show b.head_ + 1 < SIZE_T_MOD by omega)]
  unfold push_back
  dsimp only
  split <;> rfl

theorem push_back_tail {b : CircularBuffer α Size} (h : Inv b) (hW : Size < SIZE_T_MOD)
    (v : α) :
    (b.push_back v).tail_ =
      if (if b.head_ + 1 < Size then b.head_ + 1 else 0) = b.tail_ then
        (if b.tail_ + 1 < Size then b.tail_ + 1 else 0)
      else b.tail_ := by
  have hh := h.2.1
  have ht := h.2.2
  rw [← succ_mod_lt hh, ← succ_mod_lt ht,
    ← szAdd_of_lt (show b.head_ + 1 < SIZE_T_MOD by omega),
    ← szAdd_of_lt (show b.tail_ + 1 < SIZE_T_MOD by omega)]
  unfold push_back
  dsimp only
  split
  · next hc => rw [if_pos (by simpa using hc)]
  · next hc => rw [if_neg (by simpa using hc)]

/-- The effect of `push_back` on `size()`: one more, unless that would be `Size`. -/
theorem size_push_back {b : CircularBuffer α Size} (h : Inv b) (hW : Size < SIZE_T_MOD)
    (v : α) :
    (b.push_back v).size = if b.size + 1 < Size then b.size + 1 else b.size := by
  rw [size_eq (inv_push_back h v) hW, size_eq h hW, push_back_head h hW, push_back_tail h hW]
  obtain ⟨_, hh, ht⟩ := h
  split_ifs <;> omega

/-- The slots of the logical window. -/
theorem window_getElem? {b : CircularBuffer α Size} (h : Inv b) (hW : Size < SIZE_T_MOD)
    (j : Nat) :
    b.window[j]? = if j < b.size then b.buffer_[(b.tail_ + j) % Size]? else none := by
  have hlt := size_lt h hW
  unfold window
  rw [List.getElem?_take]
  split
  · rw [List.getElem?_rotate (by rw [h.1]; omega), h.1, Nat.add_comm]
  · rfl

end CircularBuffer

namespace CircularBuffer

variable {α : Type} {Size : Nat}

theorem size_cases {b : CircularBuffer α Size} (h : Inv b) (hW : Size < SIZE_T_MOD) :
    (b.tail_ ≤ b.head_ ∧ b.size = b.head_ - b.tail_) ∨
      (b.head_ < b.tail_ ∧ b.size = Size - b.tail_ + b.head_) := by
  rw [size_eq h hW]
  split
  · exact Or.inl ⟨by assumption, rfl⟩
  · exact Or.inr ⟨by omega, rfl⟩

theorem push_back_tail_of_lt {b : CircularBuffer α Size} (h : Inv b)
    (hW : Size < SIZE_T_MOD) (v : α) (hroom : b.size + 1 < Size) :
    (b.push_back v).tail_ = b.tail_ := by
  have hn := size_cases h hW
  rw [push_back_tail h hW]
  obtain ⟨_, hh, ht⟩ := h
  split_ifs <;> omega

theorem push_back_tail_of_full {b : CircularBuffer α Size} (h : Inv b)
    (hW : Size < SIZE_T_MOD) (v : α) (hfull : ¬ b.size + 1 < Size) :
    (b.push_back v).tail_ = if b.tail_ + 1 < Size then b.tail_ + 1 else 0 := by
  have hn := size_cases h hW
  rw [push_back_tail h hW]
  obtain ⟨_, hh, ht⟩ := h
  split_ifs <;> omega

/-- The effect of `push_back` on the logical window: the value is appended,
and the oldest element leaves when the window would reach `Size` elements. -/
theorem window_push_back {b : CircularBuffer α Size} (h : Inv b) (hW : Size < SIZE_T_MOD)
    (v : α) :
    (b.push_back v).window =
      if b.size + 1 < Size then b.window ++ [v] else (b.window ++ [v]).drop 1 := by
  have hlen := length_window h hW
  have hn := size_cases h hW
  have hlt := size_lt h hW
  have hi' := inv_push_back h v
  have ht' := hi'.2.2
  apply List.ext_getElem?
  intro j
  rw [window_getElem? hi' hW, size_push_back h hW, push_back_buffer, List.getElem?_set]
  have hh := h.2.1
  have ht := h.2.2
  have hl := h.1
  by_cases hfull : b.size + 1 < Size
  · have hpt := push_back_tail_of_lt h hW v hfull
    simp only [hfull, if_true]
    rw [List.getElem?_append, hlen, window_getElem? h hW]
    by_cases hj : j < b.size + 1
    · rw [if_pos hj, add_mod_lt ht' (show j < Size by omega)]
      by_cases hjn : j < b.size
      · rw [if_pos hjn, if_pos hjn, add_mod_lt ht (show j < Size by omega)]
        simp only [hpt, hl]
        split_ifs <;> first | rfl | (exfalso; omega)
      · have hjeq : j = b.size := by omega
        subst hjeq
        rw [if_neg hjn, Nat.sub_self]
        simp only [hpt, hl]
        split_ifs <;> first | rfl | (exfalso; omega)
    · rw [if_neg hj, if_neg (by omega)]
      rw [List.getElem?_eq_none]
      simp only [List.length_singleton]
      omega
  · have hpt := push_back_tail_of_full h hW v hfull
    simp only [hfull, if_false]
    rw [List.getElem?_drop, List.getElem?_append, hlen, window_getElem? h hW]
    by_cases hj : j < b.size
    · rw [if_pos hj, add_mod_lt ht' (show j < Size by omega)]
      by_cases hjn : 1 + j < b.size
      · rw [if_pos hjn, if_pos hjn, add_mod_lt ht (show 1 + j < Size by omega)]
        simp only [hpt, hl]
        split_ifs <;> first | rfl | (exfalso; omega) | (congr 1; omega)
      · have hjeq : 1 + j - b.size = 0 := by omega
        rw [if_neg hjn, hjeq]
        simp only [hpt, hl]
        split_ifs <;> first | rfl | (exfalso; omega)
    · rw [if_neg hj, if_neg (by omega)]
      rw [List.getElem?_eq_none]
      simp only [List.length_singleton]
      omega

theorem pushAll_append (b : CircularBuffer α Size) (vs : List α) (v : α) :
    b.pushAll (vs ++ [v]) = (b.pushAll vs).push_back v := by
  simp [pushAll, List.foldl_append]

/-- What a run of `push_back` calls on a fresh buffer leaves behind: the last
`min n (Size - 1)` of the `n` values pushed. -/
theorem window_pushAll_fresh (storage : List α) (hl : storage.length = Size)
    (hS : 1 ≤ Size) (hW : Size < SIZE_T_MOD) (vs : List α) :
    ((fresh storage : CircularBuffer α Size).pushAll vs).size = min vs.length (Size - 1) ∧
    ((fresh storage : CircularBuffer α Size).pushAll vs).window
      = vs.drop (vs.length - (Size - 1)) := by
  induction vs using List.reverseRecOn with
  | nil =>
    have h0 : (fresh storage : CircularBuffer α Size).size = 0 := by
      simp only [size, fresh, ge_iff_le, Nat.le_refl, if_true, szSub_self]
    refine ⟨by rw [pushAll, List.foldl_nil, h0]; simp, ?_⟩
    rw [pushAll, List.foldl_nil, window, h0, List.take_zero, List.drop_nil]
  | append_singleton vs v ih =>
    have hinv := (reachable_pushAll (Reachable.fresh storage hl) vs).inv hS
    obtain ⟨ihs, ihw⟩ := ih
    rw [pushAll_append, size_push_back hinv hW, window_push_back hinv hW, ihs, ihw]
    simp only [List.length_append, List.length_singleton]
    by_cases hroom : min vs.length (Size - 1) + 1 < Size
    · rw [if_pos hroom, if_pos hroom]
      have h1 : vs.length - (Size - 1) = 0 := by omega
      have h2 : vs.length + 1 - (Size - 1) = 0 := by omega
      rw [h1, h2]
      exact ⟨by omega, rfl⟩
    · rw [if_neg hroom, if_neg hroom]
      refine ⟨by omega, ?_⟩
      have h3 : vs.length + 1 - (Size - 1) = vs.length - (Size - 1) + 1 := by omega
      rw [h3, ← List.drop_append_of_le_length (Nat.sub_le _ _), List.drop_drop]

end CircularBuffer

/-! ## Two buffers that differ only outside the logical window -/

namespace CircularBuffer

variable {α : Type} {Size : Nat}

theorem size_congr {b₁ b₂ : CircularBuffer α Size} (hh : b₁.head_ = b₂.head_)
    (ht : b₁.tail_ = b₂.tail_) : b₁.size = b₂.size := by
  unfold size
  rw [hh, ht]

theorem empty_congr {b₁ b₂ : CircularBuffer α Size} (hh : b₁.head_ = b₂.head_)
    (ht : b₁.tail_ = b₂.tail_) : b₁.empty = b₂.empty := by
  unfold empty
  rw [hh, ht]

theorem size_of_empty {b : CircularBuffer α Size} (he : b.empty = true) : b.size = 0 := by
  have hht : b.head_ = b.tail_ := by simpa [empty] using he
  unfold size
  rw [hht, if_pos (Nat.le_refl _)]
  exact szSub_self _

theorem size_clear (b : CircularBuffer α Size) : b.clear.size = 0 :=
  size_of_empty (b := b.clear) (by simp [empty, clear])

theorem size_fresh (storage : List α) : (fresh storage : CircularBuffer α Size).size = 0 :=
  size_of_empty (b := fresh storage) (by simp [empty, fresh])

theorem window_of_empty {b : CircularBuffer α Size} (he : b.empty = true) : b.window = [] := by
  rw [window, size_of_empty he, List.take_zero]

theorem pop_front_of_empty {b : CircularBuffer α Size} (he : b.empty = true) :
    b.pop_front = b := by
  simp [pop_front, he]

theorem window_pop_front_tail {b : CircularBuffer α Size} (h : Inv b)
    (hW : Size < SIZE_T_MOD) : b.pop_front.window = b.window.tail := by
  cases he : b.empty with
  | true => rw [pop_front_of_empty he, window_of_empty he, List.tail_nil]
  | false =>
    have hi : b.tail_ < b.buffer_.length := by rw [h.1]; exact h.2.2
    rw [window_pop_front h hW he hi, List.tail_cons]

theorem push_back_head_raw (b : CircularBuffer α Size) (v : α) :
    (b.push_back v).head_ = szAdd b.head_ 1 % Size := by
  unfold push_back
  dsimp only
  split <;> rfl

theorem push_back_tail_raw (b : CircularBuffer α Size) (v : α) :
    (b.push_back v).tail_ =
      if (szAdd b.head_ 1 % Size == b.tail_) = true then szAdd b.tail_ 1 % Size
      else b.tail_ := by
  unfold push_back
  dsimp only
  split <;> rfl

theorem pop_front_head (b : CircularBuffer α Size) : b.pop_front.head_ = b.head_ := by
  unfold pop_front
  split <;> rfl

theorem pop_front_tail_raw (b : CircularBuffer α Size) :
    b.pop_front.tail_ = if (!b.empty) = true then szAdd b.tail_ 1 % Size else b.tail_ := by
  unfold pop_front
  split <;> rfl

/-- One call keeps two buffers with the same indices and the same window in
step, whatever their storage holds outside the window. -/
theorem apply_agree {b₁ b₂ : CircularBuffer α Size} (hW : Size < SIZE_T_MOD)
    (h₁ : Inv b₁) (h₂ : Inv b₂) (hh : b₁.head_ = b₂.head_) (ht : b₁.tail_ = b₂.tail_)
    (hw : b₁.window = b₂.window) (op : Op α) :
    Inv (b₁.apply op) ∧ Inv (b₂.apply op) ∧ (b₁.apply op).head_ = (b₂.apply op).head_ ∧
      (b₁.apply op).tail_ = (b₂.apply op).tail_ ∧
      (b₁.apply op).window = (b₂.apply op).window := by
  cases op with
  | push_back v =>
    refine ⟨inv_push_back h₁ v, inv_push_back h₂ v, ?_, ?_, ?_⟩
    · simp only [apply, push_back_head_raw, hh]
    · simp only [apply, push_back_tail_raw, hh, ht]
    · simp only [apply, window_push_back h₁ hW, window_push_back h₂ hW, hw,
        size_congr hh ht]
  | pop_front =>
    refine ⟨inv_pop_front h₁, inv_pop_front h₂, ?_, ?_, ?_⟩
    · simp only [apply, pop_front_head, hh]
    · simp only [apply, pop_front_tail_raw, empty_congr hh ht, ht]
    · simp only [apply, window_pop_front_tail h₁ hW, window_pop_front_tail h₂ hW, hw]
  | clear =>
    refine ⟨inv_clear h₁, inv_clear h₂, rfl, rfl, ?_⟩
    simp only [apply, window, size_clear, List.take_zero]

theorem run_agree (hW : Size < SIZE_T_MOD) (ops : List (Op α)) :
    ∀ {b₁ b₂ : CircularBuffer α Size}, Inv b₁ → Inv b₂ → b₁.head_ = b₂.head_ →
      b₁.tail_ = b₂.tail_ → b₁.window = b₂.window →
      Inv (b₁.run ops) ∧ Inv (b₂.run ops) ∧ (b₁.run ops).head_ = (b₂.run ops).head_ ∧
        (b₁.run ops).tail_ = (b₂.run ops).tail_ ∧
        (b₁.run ops).window = (b₂.run ops).window := by
  induction ops with
  | nil =>
    intro b₁ b₂ h₁ h₂ hh ht hw
    exact ⟨h₁, h₂, hh, ht, hw⟩
  | cons op ops ih =>
    intro b₁ b₂ h₁ h₂ hh ht hw
    obtain ⟨k₁, k₂, khh, kht, khw⟩ := apply_agree hW h₁ h₂ hh ht hw op
    exact ih k₁ k₂ khh kht khw

theorem reachable_run {b : CircularBuffer α Size} (h : Reachable b) (ops : List (Op α)) :
    Reachable (b.run ops) := by
  induction ops generalizing b with
  | nil => exact h
  | cons op ops ih =>
    cases op with
    | push_back v => exact ih (Reachable.push_back b v h)
    | pop_front => exact ih (Reachable.pop_front b h)
    | clear => exact ih (Reachable.clear b h)

end CircularBuffer

/-! ## Repeated increments -/

theorem toPtrdiff_of_lt {x : Nat} (h : x < PTRDIFF_LIMIT) : toPtrdiff x = (x : Int) := by
  unfold toPtrdiff
  rw [if_pos h]

theorem szSub_zero {a : Nat} (ha : a < SIZE_T_MOD) : szSub a 0 = a :=
  szSub_of_le (Nat.zero_le a) ha

namespace const_iterator

variable {α : Type} {Size : Nat}

theorem incr_mk (buf : CircularBuffer α Size) {i p : Nat} (hi : i + 1 < SIZE_T_MOD)
    (hp : p + 1 < SIZE_T_MOD) :
    incr { buffer_ := buf, index_ := i, position_ := p }
      = { buffer_ := buf, index_ := (i + 1) % Size, position_ := p + 1 } := by
  simp only [incr, szAdd_of_lt hi, szAdd_of_lt hp]

theorem incrN_mk (buf : CircularBuffer α Size) (hW : Size < SIZE_T_MOD) :
    ∀ (n i p : Nat), i < Size → p + n < SIZE_T_MOD →
      incrN n { buffer_ := buf, index_ := i, position_ := p }
        = { buffer_ := buf, index_ := (i + n) % Size, position_ := p + n } := by
  intro n
  induction n with
  | zero =>
    intro i p hi _
    simp only [incrN, Nat.add_zero, Nat.mod_eq_of_lt hi]
  | succ n ih =>
    intro i p hi hp
    have hS : 0 < Size := by omega
    rw [incrN, incr_mk buf (by omega) (by omega),
      ih ((i + 1) % Size) (p + 1) (Nat.mod_lt _ hS) (by omega), Nat.mod_add_mod]
    have h1 : i + 1 + n = i + (n + 1) := by omega
    have h2 : p + 1 + n = p + (n + 1) := by omega
    rw [h1, h2]

end const_iterator

namespace const_reverse_iterator

variable {α : Type} {Size : Nat}

theorem rincr_mk (buf : CircularBuffer α Size) (hW : Size < SIZE_T_MOD) {m p : Nat}
    (hm : 0 < m) (hS : 0 < Size) (hp : p + 1 < SIZE_T_MOD) :
    incr { buffer_ := buf, index_ := m % Size, position_ := p }
      = { buffer_ := buf, index_ := (m - 1) % Size, position_ := p + 1 } := by
  have hlt : m % Size < Size := Nat.mod_lt _ hS
  have hidx : (if (m % Size == 0) = true then szSub Size 1 else szSub (m % Size) 1)
      = (m - 1) % Size := by
    rw [← pred_mod hS hm]
    by_cases h0 : m % Size = 0
    · simp [h0, szSub_of_le (show 1 ≤ Size by omega) hW]
    · simp [h0, szSub_of_le (show 1 ≤ m % Size by omega)
        (show m % Size < SIZE_T_MOD by omega)]
  simp only [incr, hidx, szAdd_of_lt hp]

theorem rincrN_mk (buf : CircularBuffer α Size) (hW : Size < SIZE_T_MOD) (hS : 0 < Size) :
    ∀ (n m p : Nat), n ≤ m → p + n < SIZE_T_MOD →
      incrN n { buffer_ := buf, index_ := m % Size, position_ := p }
        = { buffer_ := buf, index_ := (m - n) % Size, position_ := p + n } := by
  intro n
  induction n with
  | zero =>
    intro m p _ _
    simp only [incrN, Nat.sub_zero, Nat.add_zero]
  | succ n ih =>
    intro m p hm hp
    rw [incrN, rincr_mk buf hW (by omega) hS (by omega), ih (m - 1) (p + 1) (by omega) (by omega)]
    have h1 : m - 1 - n = m - (n + 1) := by omega
    have h2 : p + 1 + n = p + (n + 1) := by omega
    rw [h1, h2]

end const_reverse_iterator

namespace CircularBuffer

variable {α : Type} {Size : Nat}

/-- The index `rbegin()` starts at and the index `rend()` stands at, for an
index `x` below `Size`. -/
theorem before_index {x : Nat} (hS : 0 < Size) (hW : Size < SIZE_T_MOD) (hx : x < Size) :
    (if (x == 0) = true then szSub Size 1 else szSub x 1) = (x + Size - 1) % Size := by
  have h := pred_mod (S := Size) (m := x + Size) hS (by omega)
  rw [Nat.add_mod_right, Nat.mod_eq_of_lt hx] at h
  rw [← h]
  by_cases h0 : x = 0
  · simp [h0, szSub_of_le (show 1 ≤ Size by omega) hW]
  · simp [h0, szSub_of_le (show 1 ≤ x by omega) (show x < SIZE_T_MOD by omega)]

theorem incrN_begin {b : CircularBuffer α Size} (h : Inv b) (hW : Size < SIZE_T_MOD) :
    b.begin.incrN b.size = { buffer_ := b, index_ := b.head_, position_ := b.size } := by
  have hlt := size_lt h hW
  rw [begin, const_iterator.incrN_mk b hW b.size b.tail_ 0 h.2.2 (by omega),
    tail_add_size h hW, Nat.zero_add]

theorem incrN_rbegin {b : CircularBuffer α Size} (h : Inv b) (hW : Size < SIZE_T_MOD) :
    b.rbegin.incrN b.size = b.rend := by
  have hlt := size_lt h hW
  have hS := h.pos
  have hhead := tail_add_size h hW
  have ht := h.2.2
  have hrb : b.rbegin = ⟨b, (b.tail_ + b.size + Size - 1) % Size, 0⟩ := by
    simp only [rbegin, before_index hS hW h.2.1]
    congr 1
    have e1 : b.head_ + Size - 1 = (Size - 1) + b.head_ := by omega
    have e2 : b.tail_ + b.size + Size - 1 = (Size - 1) + (b.tail_ + b.size) := by omega
    rw [e1, e2, Nat.add_mod, ← hhead, Nat.mod_mod, ← Nat.add_mod]
  have hre : b.rend = ⟨b, (b.tail_ + Size - 1) % Size, b.size⟩ := by
    simp only [rend, before_index hS hW ht]
  rw [hrb, hre, const_reverse_iterator.rincrN_mk b hW hS b.size _ 0 (by omega) (by omega)]
  have e3 : b.tail_ + b.size + Size - 1 - b.size = b.tail_ + Size - 1 := by omega
  rw [e3, Nat.zero_add]

end CircularBuffer

/-! ## One step forth and back -/

theorem szSub_szAdd_one {p : Nat} (hp : p < SIZE_T_MOD) : szSub (szAdd p 1) 1 = p := by
  simp only [szAdd, szSub, SIZE_T_MOD] at *
  omega

theorem szAdd_szSub_one {p : Nat} (hp : p < SIZE_T_MOD) : szAdd (szSub p 1) 1 = p := by
  simp only [szAdd, szSub, SIZE_T_MOD] at *
  omega

theorem index_succ_pred {S i : Nat} (hW : S < SIZE_T_MOD) (hi : i < S) :
    (if (szAdd i 1 % S == 0) = true then szSub S 1 else szSub (szAdd i 1 % S) 1) = i := by
  rw [szAdd_of_lt (show i + 1 < SIZE_T_MOD by omega), succ_mod_lt hi]
  by_cases h : i + 1 < S
  · simp [h, szSub_of_le (show 1 ≤ i + 1 by omega) (show i + 1 < SIZE_T_MOD by omega)]
  · simp only [h, if_false, beq_self_eq_true, if_true]
    rw [szSub_of_le (by omega) hW]
    omega

theorem index_pred_succ {S i : Nat} (hW : S < SIZE_T_MOD) (hi : i < S) :
    szAdd (if (i == 0) = true then szSub S 1 else szSub i 1) 1 % S = i := by
  by_cases h : i = 0
  · subst h
    simp only [beq_self_eq_true, if_true]
    rw [szSub_of_le (by omega) hW, szAdd_of_lt (by omega), Nat.sub_add_cancel (by omega),
      Nat.mod_self]
  · have hb : (i == 0) = false := by simpa using h
    simp only [hb, Bool.false_eq_true, if_false]
    rw [szSub_of_le (by omega) (by omega), szAdd_of_lt (by omega),
      Nat.sub_add_cancel (by omega), Nat.mod_eq_of_lt hi]

theorem index_pred_int {S i : Nat} (hW : S < SIZE_T_MOD) (hi : i < S) :
    (((if (i == 0) = true then szSub S 1 else szSub i 1 : Nat)) : Int)
      = ((i : Int) - 1) % (S : Int) := by
  by_cases h : i = 0
  · subst h
    simp only [beq_self_eq_true, if_true]
    rw [szSub_of_le (by omega) hW, ← Int.add_emod_self,
      Int.emod_eq_of_lt (by omega) (by omega)]
    omega
  · have hb : (i == 0) = false := by simpa using h
    simp only [hb, Bool.false_eq_true, if_false]
    rw [szSub_of_le (by omega) (by omega), Int.emod_eq_of_lt (by omega) (by omega)]
    omega

/-! ## The buffer against the bounded queue -/

namespace CircularBuffer

variable {α : Type} {Size : Nat}

/-- One call moves the logical window as the abstract model moves its list. -/
theorem window_apply {b : CircularBuffer α Size} (h : Inv b) (hW : Size < SIZE_T_MOD)
    (op : Op α) : (b.apply op).window = specStep Size b.window op := by
  have hlen := length_window h hW
  have hS := h.pos
  cases op with
  | push_back v =>
    simp only [apply, specStep, window_push_back h hW, List.length_append,
      List.length_singleton, hlen]
    by_cases hroom : b.size + 1 < Size
    · rw [if_pos hroom, if_neg (by omega)]
    · rw [if_neg hroom, if_pos (by omega)]
  | pop_front =>
    simp only [apply, specStep, window_pop_front_tail h hW, List.drop_one]
  | clear =>
    simp only [apply, specStep, window, size_clear, List.take_zero]

theorem inv_apply {b : CircularBuffer α Size} (h : Inv b) (op : Op α) :
    Inv (b.apply op) := by
  cases op with
  | push_back v => exact inv_push_back h v
  | pop_front => exact inv_pop_front h
  | clear => exact inv_clear h

theorem window_run (hW : Size < SIZE_T_MOD) (ops : List (Op α)) :
    ∀ {b : CircularBuffer α Size}, Inv b →
      Inv (b.run ops) ∧ (b.run ops).window = ops.foldl (specStep Size) b.window := by
  induction ops with
  | nil =>
    intro b h
    exact ⟨h, rfl⟩
  | cons op ops ih =>
    intro b h
    have hstep := ih (inv_apply h op)
    rw [window_apply h hW op] at hstep
    exact hstep

/-- Every element of the abstract list was put there by a `push_back` of the
sequence (or was in the list at the start). -/
theorem mem_foldl_specStep (C : Nat) (ops : List (Op α)) :
    ∀ (l : List α) (x : α), x ∈ ops.foldl (specStep C) l → x ∈ l ∨ Op.push_back x ∈ ops := by
  induction ops with
  | nil =>
    intro l x hx
    exact Or.inl hx
  | cons op ops ih =>
    intro l x hx
    rcases ih (specStep C l op) x hx with hmem | hmem
    · cases op with
      | push_back v =>
        have hx' : x ∈ l ++ [v] := by
          simp only [specStep] at hmem
          split at hmem
          · exact List.mem_of_mem_drop hmem
          · exact hmem
        rcases List.mem_append.mp hx' with h1 | h1
        · exact Or.inl h1
        · have hxv : x = v := by simpa using h1
          subst hxv
          exact Or.inr (List.mem_cons_self _ _)
      | pop_front =>
        exact Or.inl (List.mem_of_mem_drop hmem)
      | clear =>
        simp [specStep] at hmem
    · exact Or.inr (List.mem_cons_of_mem _ hmem)

/-- The slot `rbegin()` reads after a `push_back` is the slot just written. -/
theorem rbegin_push_back {b : CircularBuffer α Size} (h : Inv b) (hW : Size < SIZE_T_MOD)
    (v : α) : (b.push_back v).rbegin.index_ = b.head_ := by
  have hS := h.pos
  have hh := h.2.1
  have hh' := (inv_push_back h v).2.1
  show (if ((b.push_back v).head_ == 0) = true then szSub Size 1
    else szSub (b.push_back v).head_ 1) = b.head_
  rw [before_index hS hW hh', push_back_head h hW]
  by_cases hlt : b.head_ + 1 < Size
  · rw [if_pos hlt]
    have e : b.head_ + 1 + Size - 1 = b.head_ + Size := by omega
    rw [e, Nat.add_mod_right, Nat.mod_eq_of_lt hh]
  · rw [if_neg hlt]
    have e : 0 + Size - 1 = b.head_ := by omega
    rw [e, Nat.mod_eq_of_lt hh]

end CircularBuffer

/-! ## The claims -/

open CircularBuffer

/-- Claim C1, evaluated on the code: with capacity 3, three `push_back` calls
on a fresh buffer leave `size()` at 2 and the forward iteration at `[2, 3]`
(the claim says 3 and `[1, 2, 3]`), and pushing 1..10 leaves `size()` at 2 and
the contents `[9, 10]` (the claim and the test `MultipleWrapArounds` say 3 and
`[8, 9, 10]`). -/
theorem C1_three_pushes_capacity_three :
    ((fresh [0, 0, 0] : CircularBuffer Nat 3).pushAll [1, 2, 3]).size = 2 ∧
    ((fresh [0, 0, 0] : CircularBuffer Nat 3).pushAll [1, 2, 3]).toList = some [2, 3] ∧
    ((fresh [0, 0, 0] : CircularBuffer Nat 3).pushAll
      [1, 2, 3, 4, 5, 6, 7, 8, 9, 10]).size = 2 ∧
    ((fresh [0, 0, 0] : CircularBuffer Nat 3).pushAll
      [1, 2, 3, 4, 5, 6, 7, 8, 9, 10]).toList = some [9, 10] := by
  decide

/-- Claim C2, evaluated on the code: with capacity 3, after pushing 1, 2, 3, 4
the buffer is not empty, its forward iteration is `[3, 4]` and slot `tail_`
holds 3, but `front()` returns 2, the value in slot `head_`. -/
theorem C2_front_reads_head_slot :
    ((fresh [0, 0, 0] : CircularBuffer Nat 3).pushAll [1, 2, 3, 4]).empty = false ∧
    ((fresh [0, 0, 0] : CircularBuffer Nat 3).pushAll [1, 2, 3, 4]).toList = some [3, 4] ∧
    ((fresh [0, 0, 0] : CircularBuffer Nat 3).pushAll [1, 2, 3, 4]).begin.deref = some 3 ∧
    ((fresh [0, 0, 0] : CircularBuffer Nat 3).pushAll [1, 2, 3, 4]).front = some 2 := by
  decide

/-- Claim C3, evaluated on the code: with capacity 3, after `push_back(5)` and
then `push_back(10)` on a fresh buffer, `back()` returns 5, the value in slot
`tail_`, not the value 10 just pushed. -/
theorem C3_back_reads_tail_slot :
    (((fresh [0, 0, 0] : CircularBuffer Nat 3).push_back 5).push_back 10).back = some 5 ∧
    (((fresh [0, 0, 0] : CircularBuffer Nat 3).push_back 5).push_back 10).toList
      = some [5, 10] := by
  decide

/-- Claim C4, evaluated on the code: with capacity 3, after pushing 1, 2, 3, 4
the forward iteration is `[3, 4]` with `tail_ = 2`, but `operator[](0)` returns
4 and `operator[](1)` returns 2, the values in the physical slots 0 and 1. -/
theorem C4_subscript_reads_physical_slot :
    ((fresh [0, 0, 0] : CircularBuffer Nat 3).pushAll [1, 2, 3, 4]).toList = some [3, 4] ∧
    ((fresh [0, 0, 0] : CircularBuffer Nat 3).pushAll [1, 2, 3, 4]).tail_ = 2 ∧
    ((fresh [0, 0, 0] : CircularBuffer Nat 3).pushAll [1, 2, 3, 4]).size = 2 ∧
    ((fresh [0, 0, 0] : CircularBuffer Nat 3).pushAll [1, 2, 3, 4]).operator_subscript 0
      = some 4 ∧
    ((fresh [0, 0, 0] : CircularBuffer Nat 3).pushAll [1, 2, 3, 4]).operator_subscript 1
      = some 2 := by
  decide

/-- Claim C5, evaluated on the code: with capacity 3 and contents `[1, 2]`,
`push_back(3)` discards 1 and leaves the contents `[2, 3]`, but `front()` then
returns 1, the element just dropped, not 2. -/
theorem C5_front_after_overwrite :
    ((fresh [0, 0, 0] : CircularBuffer Nat 3).pushAll [1, 2]).toList = some [1, 2] ∧
    (((fresh [0, 0, 0] : CircularBuffer Nat 3).pushAll [1, 2]).push_back 3).toList
      = some [2, 3] ∧
    (((fresh [0, 0, 0] : CircularBuffer Nat 3).pushAll [1, 2]).push_back 3).front
      = some 1 := by
  decide

/-- Claim C6, evaluated on the code: with capacity 3, pushing 100, 200, 300 on
a fresh buffer and then three times reading `front()` and calling
`pop_front()` reads 100, 100, 100 (the claim says 100, 200, 300); the buffer is
empty afterwards. -/
theorem C6_drain_reads_head_slot :
    (drain 3 ((fresh [0, 0, 0] : CircularBuffer Nat 3).pushAll [100, 200, 300])).1
      = [some 100, some 100, some 100] ∧
    (drain 3 ((fresh [0, 0, 0] : CircularBuffer Nat 3).pushAll [100, 200, 300])).2.empty
      = true := by
  decide

/-- Claim C7 (reverse symmetry): in every state reachable from a fresh buffer
by `push_back`, `pop_front` and `clear`, the loop from `rbegin()` with `++`
until `rend()` and the loop from `begin()` with `++` until `end()` both
terminate (any fuel above `size()` is enough), and the reverse loop reads
exactly the reverse of the list the forward loop reads; both read `size()`
elements. -/
theorem C7_reverse_symmetry {α : Type} {Size : Nat} [DecidableEq α]
    (b : CircularBuffer α Size) (hS : 1 ≤ Size) (hW : Size < SIZE_T_MOD)
    (hr : Reachable b) :
    ∃ l : List α, l.length = b.size ∧
      (∀ fuel, b.size < fuel →
        const_iterator.collect fuel b.begin b.end_ = some l) ∧
      (∀ fuel, b.size < fuel →
        const_reverse_iterator.collect fuel b.rbegin b.rend = some l.reverse) :=
  ⟨b.window, length_window (hr.inv hS) hW,
    fun fuel hf => collect_begin_end (hr.inv hS) hW fuel hf,
    fun fuel hf => collect_rbegin_rend (hr.inv hS) hW fuel hf⟩

/-- Witness of C7: capacity 3 after pushing 1, 2, 3, 4, where the window
`[3, 4]` wraps around the end of the storage `[4, 2, 3]`. -/
theorem C7_reverse_symmetry_witness :
    Reachable ((fresh [0, 0, 0] : CircularBuffer Nat 3).pushAll [1, 2, 3, 4]) ∧
    ∃ l : List Nat,
      l.length = ((fresh [0, 0, 0] : CircularBuffer Nat 3).pushAll [1, 2, 3, 4]).size ∧
      (∀ fuel, ((fresh [0, 0, 0] : CircularBuffer Nat 3).pushAll [1, 2, 3, 4]).size < fuel →
        const_iterator.collect fuel
          ((fresh [0, 0, 0] : CircularBuffer Nat 3).pushAll [1, 2, 3, 4]).begin
          ((fresh [0, 0, 0] : CircularBuffer Nat 3).pushAll [1, 2, 3, 4]).end_ = some l) ∧
      (∀ fuel, ((fresh [0, 0, 0] : CircularBuffer Nat 3).pushAll [1, 2, 3, 4]).size < fuel →
        const_reverse_iterator.collect fuel
          ((fresh [0, 0, 0] : CircularBuffer Nat 3).pushAll [1, 2, 3, 4]).rbegin
          ((fresh [0, 0, 0] : CircularBuffer Nat 3).pushAll [1, 2, 3, 4]).rend
            = some l.reverse) :=
  ⟨reachable_pushAll (Reachable.fresh _ rfl) _,
    C7_reverse_symmetry _ (by decide) (by decide)
      (reachable_pushAll (Reachable.fresh _ rfl) _)⟩

/-- Claim C8 (capacity invariant): for every capacity of at least 1 and every
sequence of `push_back` calls on a fresh buffer, `size() <= capacity()` holds
after each call, that is after every initial segment of the sequence. -/
theorem C8_size_le_capacity {α : Type} {Size : Nat} (storage vs : List α)
    (hl : storage.length = Size) (hS : 1 ≤ Size) (hW : Size < SIZE_T_MOD) (k : Nat) :
    ((fresh storage : CircularBuffer α Size).pushAll (vs.take k)).size
      ≤ ((fresh storage : CircularBuffer α Size).pushAll (vs.take k)).capacity :=
  Nat.le_of_lt
    (size_lt ((reachable_pushAll (Reachable.fresh storage hl) (vs.take k)).inv hS) hW)

/-- Witness of C8: capacity 2, the pushes 1, 2, 3, 4, after the third call. -/
theorem C8_size_le_capacity_witness :
    ([0, 0] : List Nat).length = 2 ∧ 1 ≤ 2 ∧ 2 < SIZE_T_MOD ∧
    ((fresh [0, 0] : CircularBuffer Nat 2).pushAll ([1, 2, 3, 4].take 3)).size
      ≤ ((fresh [0, 0] : CircularBuffer Nat 2).pushAll ([1, 2, 3, 4].take 3)).capacity :=
  ⟨rfl, by decide, by decide, C8_size_le_capacity [0, 0] [1, 2, 3, 4] rfl (by decide)
    (by decide) 3⟩

/-- Claim C9: `pop_front()` on an empty buffer is a no-op. For every state with
`empty()` true, whatever slot `head_ == tail_` is at, `pop_front()` returns the
same state (`head_`, `tail_` and all storage slots unchanged); `empty()` is
still true and `size()` is still 0. -/
theorem C9_pop_front_empty_noop {α : Type} {Size : Nat} (b : CircularBuffer α Size)
    (he : b.empty = true) :
    b.pop_front = b ∧ b.pop_front.empty = true ∧ b.pop_front.size = 0 := by
  have hpop : b.pop_front = b := by simp [pop_front, he]
  have hht : b.head_ = b.tail_ := by simpa [empty] using he
  refine ⟨hpop, by rw [hpop]; exact he, ?_⟩
  rw [hpop]
  unfold size
  rw [hht, if_pos (Nat.le_refl _)]
  exact szSub_self _

/-- Witness of C9: capacity 3 with `head_ == tail_ == 2`. -/
theorem C9_pop_front_empty_noop_witness :
    ((⟨[7, 8, 9], 2, 2⟩ : CircularBuffer Nat 3).empty = true) ∧
    (⟨[7, 8, 9], 2, 2⟩ : CircularBuffer Nat 3).pop_front = ⟨[7, 8, 9], 2, 2⟩ ∧
    (⟨[7, 8, 9], 2, 2⟩ : CircularBuffer Nat 3).pop_front.empty = true ∧
    (⟨[7, 8, 9], 2, 2⟩ : CircularBuffer Nat 3).pop_front.size = 0 :=
  ⟨rfl, C9_pop_front_empty_noop _ rfl⟩

/-- Claim C10: `pop_front()` on a non-empty reachable buffer whose forward
iteration reads `e1, e2, ..., ek` removes exactly the oldest element:
afterwards the forward iteration reads `e2, ..., ek`, `size()` has gone from
`k` to `k - 1`, and `head_` and the storage are unchanged. -/
theorem C10_pop_front_removes_oldest {α : Type} {Size : Nat} [DecidableEq α]
    (b : CircularBuffer α Size) (hS : 1 ≤ Size) (hW : Size < SIZE_T_MOD)
    (hr : Reachable b) (hne : b.empty = false) :
    ∃ (e : α) (es : List α), b.toList = some (e :: es) ∧
      b.pop_front.toList = some es ∧
      b.size = (e :: es).length ∧ b.pop_front.size = (e :: es).length - 1 ∧
      b.pop_front.head_ = b.head_ ∧ b.pop_front.buffer_ = b.buffer_ := by
  have hinv := hr.inv hS
  have hi : b.tail_ < b.buffer_.length := by rw [hinv.1]; exact hinv.2.2
  have hw := window_pop_front hinv hW hne hi
  have hsz := size_pop_front hinv hW hne
  have hlen := length_window (inv_pop_front hinv) hW
  refine ⟨b.buffer_[b.tail_], b.pop_front.window, ?_, toList_eq (inv_pop_front hinv) hW,
    ?_, ?_, ?_, ?_⟩
  · rw [toList_eq hinv hW, hw]
  · simp only [List.length_cons, hlen, hsz]
  · simp only [List.length_cons, hlen, Nat.add_sub_cancel]
  · rw [pop_front_of_not_empty hne]
  · rw [pop_front_of_not_empty hne]

/-- Witness of C10: capacity 5 after pushing 1..7 (contents `[4, 5, 6, 7]`). -/
theorem C10_pop_front_removes_oldest_witness :
    Reachable ((fresh [0, 0, 0, 0, 0] : CircularBuffer Nat 5).pushAll [1, 2, 3, 4, 5, 6, 7]) ∧
    ((fresh [0, 0, 0, 0, 0] : CircularBuffer Nat 5).pushAll [1, 2, 3, 4, 5, 6, 7]).empty
      = false ∧
    ∃ (e : Nat) (es : List Nat),
      ((fresh [0, 0, 0, 0, 0] : CircularBuffer Nat 5).pushAll [1, 2, 3, 4, 5, 6, 7]).toList
        = some (e :: es) ∧
      ((fresh [0, 0, 0, 0, 0] : CircularBuffer Nat 5).pushAll
        [1, 2, 3, 4, 5, 6, 7]).pop_front.toList = some es ∧
      ((fresh [0, 0, 0, 0, 0] : CircularBuffer Nat 5).pushAll [1, 2, 3, 4, 5, 6, 7]).size
        = (e :: es).length ∧
      ((fresh [0, 0, 0, 0, 0] : CircularBuffer Nat 5).pushAll
        [1, 2, 3, 4, 5, 6, 7]).pop_front.size = (e :: es).length - 1 ∧
      ((fresh [0, 0, 0, 0, 0] : CircularBuffer Nat 5).pushAll
        [1, 2, 3, 4, 5, 6, 7]).pop_front.head_
        = ((fresh [0, 0, 0, 0, 0] : CircularBuffer Nat 5).pushAll
          [1, 2, 3, 4, 5, 6, 7]).head_ ∧
      ((fresh [0, 0, 0, 0, 0] : CircularBuffer Nat 5).pushAll
        [1, 2, 3, 4, 5, 6, 7]).pop_front.buffer_
        = ((fresh [0, 0, 0, 0, 0] : CircularBuffer Nat 5).pushAll
          [1, 2, 3, 4, 5, 6, 7]).buffer_ :=
  ⟨reachable_pushAll (Reachable.fresh _ rfl) _, by decide,
    C10_pop_front_removes_oldest _ (by decide) (by decide)
      (reachable_pushAll (Reachable.fresh _ rfl) _) (by decide)⟩

/-- Claim C11 (clear): for every buffer state over `Size` storage slots,
after `clear()` the buffer is empty with `size()` 0, and after any further
sequence of calls (`push_back`, `pop_front`, and `clear` as well) the values of
`size()`, `empty()` and the forward iteration are those the same calls give on
a freshly constructed buffer, whatever either storage block held before; the
iteration terminates. Every initial segment of a sequence is a sequence, so
this holds after each call. -/
theorem C11_clear_then_as_fresh {α : Type} {Size : Nat} [DecidableEq α]
    (b : CircularBuffer α Size) (storage : List α) (ops : List (Op α))
    (hb : b.buffer_.length = Size) (hl : storage.length = Size) (hS : 1 ≤ Size)
    (hW : Size < SIZE_T_MOD) :
    b.clear.empty = true ∧ b.clear.size = 0 ∧
    (b.clear.run ops).size = ((fresh storage : CircularBuffer α Size).run ops).size ∧
    (b.clear.run ops).empty = ((fresh storage : CircularBuffer α Size).run ops).empty ∧
    ∃ l : List α, (b.clear.run ops).toList = some l ∧
      ((fresh storage : CircularBuffer α Size).run ops).toList = some l := by
  have hc : Inv b.clear := ⟨hb, hS, hS⟩
  have hf : Inv (fresh storage : CircularBuffer α Size) := inv_fresh storage hl hS
  have hw : b.clear.window = (fresh storage : CircularBuffer α Size).window := by
    rw [window, size_clear, window, size_fresh, List.take_zero, List.take_zero]
  obtain ⟨k₁, k₂, khh, kht, khw⟩ := run_agree hW ops hc hf rfl rfl hw
  refine ⟨rfl, size_clear b, size_congr khh kht, empty_congr khh kht,
    (b.clear.run ops).window, toList_eq k₁ hW, ?_⟩
  rw [khw]
  exact toList_eq k₂ hW

/-- Witness of C11: capacity 3, a buffer with stale storage `[7, 8, 9]` and
indices 1 and 2, cleared, then `push_back(40)`, `push_back(50)`, `pop_front()`,
`push_back(60)`, `push_back(70)`. -/
theorem C11_clear_then_as_fresh_witness :
    (⟨[7, 8, 9], 1, 2⟩ : CircularBuffer Nat 3).clear.empty = true ∧
    (⟨[7, 8, 9], 1, 2⟩ : CircularBuffer Nat 3).clear.size = 0 ∧
    ((⟨[7, 8, 9], 1, 2⟩ : CircularBuffer Nat 3).clear.run
        [Op.push_back 40, Op.push_back 50, Op.pop_front, Op.push_back 60,
          Op.push_back 70]).size
      = ((fresh [0, 0, 0] : CircularBuffer Nat 3).run
        [Op.push_back 40, Op.push_back 50, Op.pop_front, Op.push_back 60,
          Op.push_back 70]).size ∧
    ((⟨[7, 8, 9], 1, 2⟩ : CircularBuffer Nat 3).clear.run
        [Op.push_back 40, Op.push_back 50, Op.pop_front, Op.push_back 60,
          Op.push_back 70]).empty
      = ((fresh [0, 0, 0] : CircularBuffer Nat 3).run
        [Op.push_back 40, Op.push_back 50, Op.pop_front, Op.push_back 60,
          Op.push_back 70]).empty ∧
    ∃ l : List Nat,
      ((⟨[7, 8, 9], 1, 2⟩ : CircularBuffer Nat 3).clear.run
        [Op.push_back 40, Op.push_back 50, Op.pop_front, Op.push_back 60,
          Op.push_back 70]).toList = some l ∧
      ((fresh [0, 0, 0] : CircularBuffer Nat 3).run
        [Op.push_back 40, Op.push_back 50, Op.pop_front, Op.push_back 60,
          Op.push_back 70]).toList = some l :=
  C11_clear_then_as_fresh _ [0, 0, 0] _ rfl rfl (by decide) (by decide)

/-- Claim C12: for every buffer state with `empty()` true, whatever slot
`head_ == tail_` is at, `begin() == end()` and `rbegin() == rend()` hold under
the iterators' `operator==`. -/
theorem C12_empty_begin_eq_end {α : Type} {Size : Nat} [DecidableEq α]
    (b : CircularBuffer α Size) (he : b.empty = true) :
    b.begin.eq b.end_ = true ∧ b.rbegin.eq b.rend = true := by
  have hs := size_of_empty he
  constructor
  · simp [const_iterator.eq, begin, end_, hs]
  · simp [const_reverse_iterator.eq, rbegin, rend, hs]

/-- Witness of C12: capacity 3, two pushes and two pops, which leave
`head_ == tail_ == 2`. -/
theorem C12_empty_begin_eq_end_witness :
    ((fresh [0, 0, 0] : CircularBuffer Nat 3).pushAll [1, 2]).pop_front.pop_front.empty
      = true ∧
    ((fresh [0, 0, 0] : CircularBuffer Nat 3).pushAll [1, 2]).pop_front.pop_front.tail_
      = 2 ∧
    ((fresh [0, 0, 0] : CircularBuffer Nat 3).pushAll [1, 2]).pop_front.pop_front.begin.eq
      ((fresh [0, 0, 0] : CircularBuffer Nat 3).pushAll [1, 2]).pop_front.pop_front.end_
      = true ∧
    ((fresh [0, 0, 0] : CircularBuffer Nat 3).pushAll [1, 2]).pop_front.pop_front.rbegin.eq
      ((fresh [0, 0, 0] : CircularBuffer Nat 3).pushAll [1, 2]).pop_front.pop_front.rend
      = true :=
  ⟨by decide, by decide, C12_empty_begin_eq_end _ (by decide)⟩

/-- Counterexample to C13 as stated: with `Size == 0` the constructor does not
fail, it returns a buffer object. -/
theorem C13_capacity_zero_not_rejected :
    (construct ([] : List Nat) : Option (CircularBuffer Nat 0)) ≠ none := by
  decide

/-- Claim C13 as amended: construction with `Size == 0` is not rejected. For
every storage block the constructor returns a buffer object with
`head_ == tail_ == 0`, on which `empty()` is true, `size()` is 0 and
`pop_front()` changes nothing. -/
theorem C13_capacity_zero_constructs {α : Type} (storage : List α) :
    ∃ b : CircularBuffer α 0, construct storage = some b ∧ b.head_ = 0 ∧ b.tail_ = 0 ∧
      b.empty = true ∧ b.size = 0 ∧ b.pop_front = b :=
  ⟨fresh storage, rfl, rfl, rfl, rfl, size_fresh storage,
    pop_front_of_empty (b := fresh storage) rfl⟩

/-- Claim C14: for every capacity of at least 1 and every state reachable from
a fresh buffer by `push_back`, `pop_front` and `clear`, `size() <= Size - 1`;
with capacity 1 the buffer is empty in every reachable state. -/
theorem C14_size_le_capacity_minus_one {α : Type} {Size : Nat}
    (b : CircularBuffer α Size) (hS : 1 ≤ Size) (hW : Size < SIZE_T_MOD)
    (hr : Reachable b) :
    b.size ≤ Size - 1 ∧ (Size = 1 → b.size = 0 ∧ b.empty = true) := by
  have hinv := hr.inv hS
  have hlt := size_lt hinv hW
  refine ⟨by omega, fun h1 => ⟨by omega, ?_⟩⟩
  have hh := hinv.2.1
  have ht := hinv.2.2
  have hht : b.head_ = b.tail_ := by omega
  simp [empty, hht]

/-- Witness of C14: capacity 3 after pushing 1, 2, 3, 4, where `size()` is 2. -/
theorem C14_size_le_capacity_minus_one_witness :
    Reachable ((fresh [0, 0, 0] : CircularBuffer Nat 3).pushAll [1, 2, 3, 4]) ∧
    ((fresh [0, 0, 0] : CircularBuffer Nat 3).pushAll [1, 2, 3, 4]).size ≤ 3 - 1 ∧
    ((3 : Nat) = 1 →
      ((fresh [0, 0, 0] : CircularBuffer Nat 3).pushAll [1, 2, 3, 4]).size = 0 ∧
      ((fresh [0, 0, 0] : CircularBuffer Nat 3).pushAll [1, 2, 3, 4]).empty = true) :=
  ⟨reachable_pushAll (Reachable.fresh _ rfl) _,
    C14_size_le_capacity_minus_one _ (by decide) (by decide)
      (reachable_pushAll (Reachable.fresh _ rfl) _)⟩

/-- Claim C15, evaluated on the code: capacity 3; two pushes, two pops and the
pushes 10, 20 leave `tail_ == 2` and the contents `[10, 20]`. From `begin()`,
`+= 1` reaches index 0 and position 1 (the value 20). From there `-= 1` gives
position 0 but leaves the index at 0 (still the value 20), and so does `- 1`,
where the claim says index `(0 - 1) mod 3 == 2`, which is where one `operator--`
lands (the value 10). -/
theorem C15_minus_assign_wraps_wrongly :
    (((fresh [0, 0, 0] : CircularBuffer Nat 3).pushAll [1, 2]).pop_front.pop_front.pushAll
      [10, 20]) = ⟨[20, 2, 10], 1, 2⟩ ∧
    (⟨[20, 2, 10], 1, 2⟩ : CircularBuffer Nat 3).toList = some [10, 20] ∧
    ((⟨[20, 2, 10], 1, 2⟩ : CircularBuffer Nat 3).begin.plus_assign 1)
      = ⟨⟨[20, 2, 10], 1, 2⟩, 0, 1⟩ ∧
    ((⟨⟨[20, 2, 10], 1, 2⟩, 0, 1⟩ : const_iterator Nat 3).minus_assign 1)
      = ⟨⟨[20, 2, 10], 1, 2⟩, 0, 0⟩ ∧
    ((⟨⟨[20, 2, 10], 1, 2⟩, 0, 1⟩ : const_iterator Nat 3).minus 1)
      = ⟨⟨[20, 2, 10], 1, 2⟩, 0, 0⟩ ∧
    ((⟨⟨[20, 2, 10], 1, 2⟩, 0, 1⟩ : const_iterator Nat 3).plus_assign (-1))
      = ⟨⟨[20, 2, 10], 1, 2⟩, 0, 0⟩ ∧
    ((⟨⟨[20, 2, 10], 1, 2⟩, 0, 1⟩ : const_iterator Nat 3).minus_assign 1).deref
      = some 20 ∧
    ((⟨⟨[20, 2, 10], 1, 2⟩, 0, 1⟩ : const_iterator Nat 3).decrN 1)
      = ⟨⟨[20, 2, 10], 1, 2⟩, 2, 0⟩ ∧
    ((⟨⟨[20, 2, 10], 1, 2⟩, 0, 1⟩ : const_iterator Nat 3).decrN 1).deref = some 10 ∧
    ((0 : Int) + (-1)) % 3 = 2 := by
  decide

/-- Claim C16, evaluated on the code: capacity 5 after pushing 1..5 (the test
`ReverseIteratorArithmetic`). From `rbegin()` at index 4, `+= 2` lands on
index 2 (the value 3) and `+ 1` on index 1 (the value 2); then `-= 2` gives
position 1 but index 2 again (the value 3), where the claim says index
`(1 + 2) mod 5 == 3`, the value 4, one step newer than where `+= 2` landed. -/
theorem C16_reverse_minus_assign_wraps_wrongly :
    ((fresh [0, 0, 0, 0, 0] : CircularBuffer Nat 5).pushAll [1, 2, 3, 4, 5])
      = ⟨[1, 2, 3, 4, 5], 0, 1⟩ ∧
    (⟨[1, 2, 3, 4, 5], 0, 1⟩ : CircularBuffer Nat 5).rbegin
      = ⟨⟨[1, 2, 3, 4, 5], 0, 1⟩, 4, 0⟩ ∧
    ((⟨⟨[1, 2, 3, 4, 5], 0, 1⟩, 4, 0⟩ : const_reverse_iterator Nat 5).plus_assign 2)
      = ⟨⟨[1, 2, 3, 4, 5], 0, 1⟩, 2, 2⟩ ∧
    ((⟨⟨[1, 2, 3, 4, 5], 0, 1⟩, 2, 2⟩ : const_reverse_iterator Nat 5).plus 1)
      = ⟨⟨[1, 2, 3, 4, 5], 0, 1⟩, 1, 3⟩ ∧
    ((⟨⟨[1, 2, 3, 4, 5], 0, 1⟩, 1, 3⟩ : const_reverse_iterator Nat 5).minus_assign 2)
      = ⟨⟨[1, 2, 3, 4, 5], 0, 1⟩, 2, 1⟩ ∧
    ((⟨⟨[1, 2, 3, 4, 5], 0, 1⟩, 1, 3⟩ : const_reverse_iterator Nat 5).minus 2)
      = ⟨⟨[1, 2, 3, 4, 5], 0, 1⟩, 2, 1⟩ ∧
    ((⟨⟨[1, 2, 3, 4, 5], 0, 1⟩, 1, 3⟩ : const_reverse_iterator Nat 5).plus_assign (-2))
      = ⟨⟨[1, 2, 3, 4, 5], 0, 1⟩, 2, 1⟩ ∧
    ((⟨⟨[1, 2, 3, 4, 5], 0, 1⟩, 1, 3⟩ : const_reverse_iterator Nat 5).minus_assign 2).deref
      = some 3 ∧
    ((1 : Int) + 2) % 5 = 3 ∧
    (⟨⟨[1, 2, 3, 4, 5], 0, 1⟩, 3, 1⟩ : const_reverse_iterator Nat 5).deref = some 4 := by
  decide

/-- Claim C17: in every reachable state, `operator++` applied `size()` times
to `begin()` gives an iterator with the logical position and the physical
index (`head_`) of `end()`, and `end() - begin() == size()`; `operator++`
applied `size()` times to `rbegin()` gives the position and index of `rend()`,
and `rend() - rbegin() == size()`. The capacity is at most `2 ^ 63`, as no
array can have more elements. -/
theorem C17_end_is_begin_advanced {α : Type} {Size : Nat}
    (b : CircularBuffer α Size) (hS : 1 ≤ Size) (hP : Size ≤ PTRDIFF_LIMIT)
    (hr : Reachable b) :
    (b.begin.incrN b.size).position_ = b.end_.position_ ∧
    (b.begin.incrN b.size).index_ = b.end_.index_ ∧
    b.end_.index_ = b.head_ ∧
    b.end_.diff b.begin = (b.size : Int) ∧
    (b.rbegin.incrN b.size).position_ = b.rend.position_ ∧
    (b.rbegin.incrN b.size).index_ = b.rend.index_ ∧
    b.rend.diff b.rbegin = (b.size : Int) := by
  have hW : Size < SIZE_T_MOD := Nat.lt_of_le_of_lt hP (by decide)
  have hinv := hr.inv hS
  have hlt := size_lt hinv hW
  have hd : toPtrdiff (szSub b.size 0) = (b.size : Int) := by
    rw [szSub_zero (by omega), toPtrdiff_of_lt (by omega)]
  rw [incrN_begin hinv hW, incrN_rbegin hinv hW]
  exact ⟨rfl, rfl, rfl, hd, rfl, rfl, hd⟩

/-- Witness of C17: capacity 5 after pushing 1..7 and one `pop_front()`. -/
theorem C17_end_is_begin_advanced_witness :
    Reachable ((fresh [0, 0, 0, 0, 0] : CircularBuffer Nat 5).pushAll
      [1, 2, 3, 4, 5, 6, 7]).pop_front ∧
    (((fresh [0, 0, 0, 0, 0] : CircularBuffer Nat 5).pushAll
        [1, 2, 3, 4, 5, 6, 7]).pop_front.begin.incrN
      ((fresh [0, 0, 0, 0, 0] : CircularBuffer Nat 5).pushAll
        [1, 2, 3, 4, 5, 6, 7]).pop_front.size).position_
      = ((fresh [0, 0, 0, 0, 0] : CircularBuffer Nat 5).pushAll
        [1, 2, 3, 4, 5, 6, 7]).pop_front.end_.position_ ∧
    (((fresh [0, 0, 0, 0, 0] : CircularBuffer Nat 5).pushAll
        [1, 2, 3, 4, 5, 6, 7]).pop_front.begin.incrN
      ((fresh [0, 0, 0, 0, 0] : CircularBuffer Nat 5).pushAll
        [1, 2, 3, 4, 5, 6, 7]).pop_front.size).index_
      = ((fresh [0, 0, 0, 0, 0] : CircularBuffer Nat 5).pushAll
        [1, 2, 3, 4, 5, 6, 7]).pop_front.end_.index_ ∧
    ((fresh [0, 0, 0, 0, 0] : CircularBuffer Nat 5).pushAll
        [1, 2, 3, 4, 5, 6, 7]).pop_front.end_.index_
      = ((fresh [0, 0, 0, 0, 0] : CircularBuffer Nat 5).pushAll
        [1, 2, 3, 4, 5, 6, 7]).pop_front.head_ ∧
    ((fresh [0, 0, 0, 0, 0] : CircularBuffer Nat 5).pushAll
        [1, 2, 3, 4, 5, 6, 7]).pop_front.end_.diff
      ((fresh [0, 0, 0, 0, 0] : CircularBuffer Nat 5).pushAll
        [1, 2, 3, 4, 5, 6, 7]).pop_front.begin
      = (((fresh [0, 0, 0, 0, 0] : CircularBuffer Nat 5).pushAll
        [1, 2, 3, 4, 5, 6, 7]).pop_front.size : Int) ∧
    (((fresh [0, 0, 0, 0, 0] : CircularBuffer Nat 5).pushAll
        [1, 2, 3, 4, 5, 6, 7]).pop_front.rbegin.incrN
      ((fresh [0, 0, 0, 0, 0] : CircularBuffer Nat 5).pushAll
        [1, 2, 3, 4, 5, 6, 7]).pop_front.size).position_
      = ((fresh [0, 0, 0, 0, 0] : CircularBuffer Nat 5).pushAll
        [1, 2, 3, 4, 5, 6, 7]).pop_front.rend.position_ ∧
    (((fresh [0, 0, 0, 0, 0] : CircularBuffer Nat 5).pushAll
        [1, 2, 3, 4, 5, 6, 7]).pop_front.rbegin.incrN
      ((fresh [0, 0, 0, 0, 0] : CircularBuffer Nat 5).pushAll
        [1, 2, 3, 4, 5, 6, 7]).pop_front.size).index_
      = ((fresh [0, 0, 0, 0, 0] : CircularBuffer Nat 5).pushAll
        [1, 2, 3, 4, 5, 6, 7]).pop_front.rend.index_ ∧
    ((fresh [0, 0, 0, 0, 0] : CircularBuffer Nat 5).pushAll
        [1, 2, 3, 4, 5, 6, 7]).pop_front.rend.diff
      ((fresh [0, 0, 0, 0, 0] : CircularBuffer Nat 5).pushAll
        [1, 2, 3, 4, 5, 6, 7]).pop_front.rbegin
      = (((fresh [0, 0, 0, 0, 0] : CircularBuffer Nat 5).pushAll
        [1, 2, 3, 4, 5, 6, 7]).pop_front.size : Int) :=
  ⟨Reachable.pop_front _ (reachable_pushAll (Reachable.fresh _ rfl) _),
    C17_end_is_begin_advanced _ (by decide) (by decide)
      (Reachable.pop_front _ (reachable_pushAll (Reachable.fresh _ rfl) _))⟩

/-- Claim C18: for every state with `head_` and `tail_` below `Size`, the
two-branch value of `size()` is `(head_ - tail_) mod Size`, the non-negative
remainder of the integer difference. -/
theorem C18_size_is_difference_mod {α : Type} {Size : Nat} (b : CircularBuffer α Size)
    (hh : b.head_ < Size) (ht : b.tail_ < Size) (hW : Size < SIZE_T_MOD) :
    (b.size : Int) = ((b.head_ : Int) - (b.tail_ : Int)) % (Size : Int) := by
  unfold size
  split
  · next hge =>
    rw [szSub_of_le hge (by omega), Nat.cast_sub hge]
    exact (Int.emod_eq_of_lt (by omega) (by omega)).symm
  · next hlt =>
    rw [szSub_of_le (by omega) hW, szAdd_of_lt (by omega), ← Int.add_emod_self]
    rw [Int.emod_eq_of_lt (by omega) (by omega)]
    omega

/-- Witness of C18: capacity 5 with `head_ == 1` and `tail_ == 3`, `size()` 3. -/
theorem C18_size_is_difference_mod_witness :
    (⟨[6, 2, 3, 4, 5], 1, 3⟩ : CircularBuffer Nat 5).size = 3 ∧
    (((⟨[6, 2, 3, 4, 5], 1, 3⟩ : CircularBuffer Nat 5).size : Nat) : Int)
      = (((1 : Nat) : Int) - ((3 : Nat) : Int)) % ((5 : Nat) : Int) :=
  ⟨by decide,
    C18_size_is_difference_mod (⟨[6, 2, 3, 4, 5], 1, 3⟩ : CircularBuffer Nat 5)
      (by decide) (by decide) (by decide)⟩

/-- Claim C19 (index invariant): for every capacity of at least 1 the
predicate `head_ < Size` and `tail_ < Size` holds for a freshly constructed
buffer and is preserved by `push_back`, `pop_front` and `clear`; hence in
every reachable state the slot `head_` written by `push_back`, the slot
`tail_` read through `begin()` and the slot read through `rbegin()` lie inside
the storage. -/
theorem C19_index_invariant {α : Type} {Size : Nat} (hS : 1 ≤ Size)
    (hW : Size < SIZE_T_MOD) :
    (∀ storage : List α, IdxInv (fresh storage : CircularBuffer α Size)) ∧
    (∀ (b : CircularBuffer α Size) (v : α), IdxInv b → IdxInv (b.push_back v)) ∧
    (∀ b : CircularBuffer α Size, IdxInv b → IdxInv b.pop_front) ∧
    (∀ b : CircularBuffer α Size, IdxInv b → IdxInv b.clear) ∧
    (∀ b : CircularBuffer α Size, Reachable b →
      IdxInv b ∧ b.head_ < b.buffer_.length ∧ b.begin.index_ < b.buffer_.length ∧
        b.rbegin.index_ < b.buffer_.length) := by
  have hpos : 0 < Size := hS
  refine ⟨fun _ => ⟨hpos, hpos⟩, ?_, ?_, fun _ _ => ⟨hpos, hpos⟩, ?_⟩
  · intro b v h
    refine ⟨by rw [push_back_head_raw]; exact Nat.mod_lt _ hpos, ?_⟩
    rw [push_back_tail_raw]
    split
    · exact Nat.mod_lt _ hpos
    · exact h.2
  · intro b h
    refine ⟨by rw [pop_front_head]; exact h.1, ?_⟩
    rw [pop_front_tail_raw]
    split
    · exact Nat.mod_lt _ hpos
    · exact h.2
  · intro b hr
    have hinv := hr.inv hpos
    refine ⟨⟨hinv.2.1, hinv.2.2⟩, by rw [hinv.1]; exact hinv.2.1,
      by rw [hinv.1]; exact hinv.2.2, ?_⟩
    rw [hinv.1]
    show (if (b.head_ == 0) = true then szSub Size 1 else szSub b.head_ 1) < Size
    rw [before_index hpos hW hinv.2.1]
    exact Nat.mod_lt _ hpos

/-- Witness of C19: capacity 3 and values in `Nat`. -/
theorem C19_index_invariant_witness :
    1 ≤ 3 ∧ 3 < SIZE_T_MOD ∧
    ((∀ storage : List Nat, IdxInv (fresh storage : CircularBuffer Nat 3)) ∧
    (∀ (b : CircularBuffer Nat 3) (v : Nat), IdxInv b → IdxInv (b.push_back v)) ∧
    (∀ b : CircularBuffer Nat 3, IdxInv b → IdxInv b.pop_front) ∧
    (∀ b : CircularBuffer Nat 3, IdxInv b → IdxInv b.clear) ∧
    (∀ b : CircularBuffer Nat 3, Reachable b →
      IdxInv b ∧ b.head_ < b.buffer_.length ∧ b.begin.index_ < b.buffer_.length ∧
        b.rbegin.index_ < b.buffer_.length)) :=
  ⟨by decide, by decide, C19_index_invariant (by decide) (by decide)⟩

/-- Counterexample to C20 as stated: capacity 3, buffer with storage
`[20, 2, 10]`, `head_ == 1`, `tail_ == 2`. One `--` on `begin()` gives a forward
iterator at index 1 (below the capacity) and position `2 ^ 64 - 1`; one `--` on
`rbegin()` gives a reverse iterator at index 1 and the same position. On both,
`++` takes the position to 0, not to the position plus 1. -/
theorem C20_incr_wraps_position :
    (⟨[20, 2, 10], 1, 2⟩ : CircularBuffer Nat 3).begin.decr
      = ⟨⟨[20, 2, 10], 1, 2⟩, 1, 18446744073709551615⟩ ∧
    (⟨⟨[20, 2, 10], 1, 2⟩, 1, 18446744073709551615⟩ : const_iterator Nat 3).index_ < 3 ∧
    (⟨⟨[20, 2, 10], 1, 2⟩, 1, 18446744073709551615⟩ : const_iterator Nat 3).incr.position_
      = 0 ∧
    (⟨⟨[20, 2, 10], 1, 2⟩, 1, 18446744073709551615⟩ : const_iterator Nat 3).incr.position_
      ≠ (⟨⟨[20, 2, 10], 1, 2⟩, 1, 18446744073709551615⟩ :
          const_iterator Nat 3).position_ + 1 ∧
    (⟨[20, 2, 10], 1, 2⟩ : CircularBuffer Nat 3).rbegin.decr
      = ⟨⟨[20, 2, 10], 1, 2⟩, 1, 18446744073709551615⟩ ∧
    (⟨⟨[20, 2, 10], 1, 2⟩, 1, 18446744073709551615⟩ :
        const_reverse_iterator Nat 3).incr.position_ = 0 ∧
    (⟨⟨[20, 2, 10], 1, 2⟩, 1, 18446744073709551615⟩ :
        const_reverse_iterator Nat 3).incr.position_
      ≠ (⟨⟨[20, 2, 10], 1, 2⟩, 1, 18446744073709551615⟩ :
          const_reverse_iterator Nat 3).position_ + 1 := by
  decide

/-- Claim C20 as amended: on every `const_iterator` and every
`const_reverse_iterator` with index below `Size` (the position being any
`std::size_t` value), `++` then `--` and `--` then `++` both give back the
iterator (same buffer, index and position), at position 0 and at position
`2 ^ 64 - 1` as well; forward `++` moves the index to `(i + 1) mod Size`,
reverse `++` moves it to `(i - 1) mod Size`, and each raises the position by 1
modulo `2 ^ 64`: by exactly 1 below `2 ^ 64 - 1`, and from `2 ^ 64 - 1` to 0. -/
theorem C20_incr_decr_inverse {α : Type} {Size : Nat} (it : const_iterator α Size)
    (rit : const_reverse_iterator α Size) (hW : Size < SIZE_T_MOD)
    (hi : it.index_ < Size) (hp : it.position_ < SIZE_T_MOD)
    (hri : rit.index_ < Size) (hrp : rit.position_ < SIZE_T_MOD) :
    it.incr.decr = it ∧ it.decr.incr = it ∧
    it.incr.index_ = (it.index_ + 1) % Size ∧
    it.incr.position_ = (it.position_ + 1) % SIZE_T_MOD ∧
    (it.position_ + 1 < SIZE_T_MOD → it.incr.position_ = it.position_ + 1) ∧
    (it.position_ + 1 = SIZE_T_MOD → it.incr.position_ = 0) ∧
    rit.incr.decr = rit ∧ rit.decr.incr = rit ∧
    (rit.incr.index_ : Int) = ((rit.index_ : Int) - 1) % (Size : Int) ∧
    rit.incr.position_ = (rit.position_ + 1) % SIZE_T_MOD ∧
    (rit.position_ + 1 < SIZE_T_MOD → rit.incr.position_ = rit.position_ + 1) ∧
    (rit.position_ + 1 = SIZE_T_MOD → rit.incr.position_ = 0) := by
  obtain ⟨buf, i, p⟩ := it
  obtain ⟨rbuf, j, q⟩ := rit
  simp only at hi hp hri hrp
  refine ⟨?_, ?_, ?_, rfl, ?_, ?_, ?_, ?_, ?_, rfl, ?_, ?_⟩
  · simp only [const_iterator.incr, const_iterator.decr, index_succ_pred hW hi,
      szSub_szAdd_one hp]
  · simp only [const_iterator.incr, const_iterator.decr, index_pred_succ hW hi,
      szAdd_szSub_one hp]
  · simp only [const_iterator.incr, szAdd_of_lt (show i + 1 < SIZE_T_MOD by omega)]
  · intro h
    simp only [const_iterator.incr, szAdd_of_lt h]
  · intro h
    simp only [const_iterator.incr, szAdd, h, Nat.mod_self]
  · simp only [const_reverse_iterator.incr, const_reverse_iterator.decr,
      index_pred_succ hW hri, szSub_szAdd_one hrp]
  · simp only [const_reverse_iterator.incr, const_reverse_iterator.decr,
      index_succ_pred hW hri, szAdd_szSub_one hrp]
  · simp only [const_reverse_iterator.incr]
    exact index_pred_int hW hri
  · intro h
    simp only [const_reverse_iterator.incr, szAdd_of_lt h]
  · intro h
    simp only [const_reverse_iterator.incr, szAdd, h, Nat.mod_self]

/-- Witness of C20: capacity 3; a forward iterator at the last slot, index 2,
and a reverse iterator at the first slot, index 0, so that both index steps
wrap, both at position `2 ^ 64 - 1`, where the position wraps as well. -/
theorem C20_incr_decr_inverse_witness :
    (⟨⟨[20, 2, 10], 1, 2⟩, 2, 18446744073709551615⟩ : const_iterator Nat 3).incr.decr
      = ⟨⟨[20, 2, 10], 1, 2⟩, 2, 18446744073709551615⟩ ∧
    (⟨⟨[20, 2, 10], 1, 2⟩, 2, 18446744073709551615⟩ : const_iterator Nat 3).decr.incr
      = ⟨⟨[20, 2, 10], 1, 2⟩, 2, 18446744073709551615⟩ ∧
    (⟨⟨[20, 2, 10], 1, 2⟩, 2, 18446744073709551615⟩ : const_iterator Nat 3).incr.index_
      = (2 + 1) % 3 ∧
    (⟨⟨[20, 2, 10], 1, 2⟩, 2, 18446744073709551615⟩ : const_iterator Nat 3).incr.position_
      = (18446744073709551615 + 1) % SIZE_T_MOD ∧
    (18446744073709551615 + 1 < SIZE_T_MOD →
      (⟨⟨[20, 2, 10], 1, 2⟩, 2, 18446744073709551615⟩ : const_iterator Nat 3).incr.position_
        = 18446744073709551615 + 1) ∧
    (18446744073709551615 + 1 = SIZE_T_MOD →
      (⟨⟨[20, 2, 10], 1, 2⟩, 2, 18446744073709551615⟩ : const_iterator Nat 3).incr.position_
        = 0) ∧
    (⟨⟨[20, 2, 10], 1, 2⟩, 0, 18446744073709551615⟩ :
        const_reverse_iterator Nat 3).incr.decr
      = ⟨⟨[20, 2, 10], 1, 2⟩, 0, 18446744073709551615⟩ ∧
    (⟨⟨[20, 2, 10], 1, 2⟩, 0, 18446744073709551615⟩ :
        const_reverse_iterator Nat 3).decr.incr
      = ⟨⟨[20, 2, 10], 1, 2⟩, 0, 18446744073709551615⟩ ∧
    (((⟨⟨[20, 2, 10], 1, 2⟩, 0, 18446744073709551615⟩ :
        const_reverse_iterator Nat 3).incr.index_ : Nat) : Int)
      = (((0 : Nat) : Int) - 1) % ((3 : Nat) : Int) ∧
    (⟨⟨[20, 2, 10], 1, 2⟩, 0, 18446744073709551615⟩ :
        const_reverse_iterator Nat 3).incr.position_
      = (18446744073709551615 + 1) % SIZE_T_MOD ∧
    (18446744073709551615 + 1 < SIZE_T_MOD →
      (⟨⟨[20, 2, 10], 1, 2⟩, 0, 18446744073709551615⟩ :
          const_reverse_iterator Nat 3).incr.position_ = 18446744073709551615 + 1) ∧
    (18446744073709551615 + 1 = SIZE_T_MOD →
      (⟨⟨[20, 2, 10], 1, 2⟩, 0, 18446744073709551615⟩ :
          const_reverse_iterator Nat 3).incr.position_ = 0) :=
  C20_incr_decr_inverse
    (⟨⟨[20, 2, 10], 1, 2⟩, 2, 18446744073709551615⟩ : const_iterator Nat 3)
    (⟨⟨[20, 2, 10], 1, 2⟩, 0, 18446744073709551615⟩ : const_reverse_iterator Nat 3)
    (by decide) (by decide) (by decide) (by decide) (by decide)

/-- Claim C21 (refinement): for every capacity of at least 1 and every finite
sequence of `push_back(v)`, `pop_front` and `clear` applied to a fresh buffer,
the forward iteration terminates and reads exactly the list of the abstract
bounded queue `specRun` (clear empties, `pop_front` drops the first element if
any, `push_back(v)` appends and drops the first element when the length
exceeds `Size - 1`). That list has at most `Size - 1` elements and each of
them is the value of a `push_back` of the sequence, so no slot is read that
holds what the storage had before. -/
theorem C21_refines_bounded_queue {α : Type} {Size : Nat} [DecidableEq α]
    (storage : List α) (ops : List (Op α)) (hl : storage.length = Size) (hS : 1 ≤ Size)
    (hW : Size < SIZE_T_MOD) :
    ((fresh storage : CircularBuffer α Size).run ops).toList = some (specRun Size ops) ∧
    (specRun Size ops).length ≤ Size - 1 ∧
    ∀ x ∈ specRun Size ops, Op.push_back x ∈ ops := by
  have hf : Inv (fresh storage : CircularBuffer α Size) := inv_fresh storage hl hS
  have hw0 : (fresh storage : CircularBuffer α Size).window = [] := by
    rw [window, size_fresh, List.take_zero]
  obtain ⟨hinv, hwin⟩ := window_run hW ops hf
  rw [hw0] at hwin
  have hlen := length_window hinv hW
  have hlt := size_lt hinv hW
  refine ⟨?_, ?_, ?_⟩
  · rw [toList_eq hinv hW, hwin]
    rfl
  · rw [hwin] at hlen
    unfold specRun
    omega
  · intro x hx
    rcases mem_foldl_specStep Size ops [] x hx with h | h
    · simp at h
    · exact h

/-- Witness of C21: capacity 3 with the calls push 1, push 2, push 3, pop,
push 4, clear, push 5, push 6, push 7. -/
theorem C21_refines_bounded_queue_witness :
    ((fresh [0, 0, 0] : CircularBuffer Nat 3).run
      [Op.push_back 1, Op.push_back 2, Op.push_back 3, Op.pop_front, Op.push_back 4,
        Op.clear, Op.push_back 5, Op.push_back 6, Op.push_back 7]).toList
      = some (specRun 3
        [Op.push_back 1, Op.push_back 2, Op.push_back 3, Op.pop_front, Op.push_back 4,
          Op.clear, Op.push_back 5, Op.push_back 6, Op.push_back 7]) ∧
    (specRun 3
        [Op.push_back 1, Op.push_back 2, Op.push_back 3, Op.pop_front, Op.push_back 4,
          Op.clear, Op.push_back 5, Op.push_back 6, Op.push_back 7]).length ≤ 3 - 1 ∧
    ∀ x ∈ specRun 3
        [Op.push_back 1, Op.push_back 2, Op.push_back 3, Op.pop_front, Op.push_back 4,
          Op.clear, Op.push_back 5, Op.push_back 6, Op.push_back 7],
      Op.push_back x ∈
        [Op.push_back 1, Op.push_back 2, Op.push_back 3, Op.pop_front, Op.push_back 4,
          Op.clear, Op.push_back 5, Op.push_back 6, Op.push_back 7] :=
  C21_refines_bounded_queue [0, 0, 0] _ rfl (by decide) (by decide)

/-- Claim C22: for every capacity of at least 2, every reachable state and
every value `v`, after `push_back(v)` the buffer is not empty (`empty()` is
false and `size() >= 1`), `*rbegin()` is `v`, and the forward iteration
terminates with `v` as its last element. -/
theorem C22_push_back_newest {α : Type} {Size : Nat} [DecidableEq α]
    (b : CircularBuffer α Size) (v : α) (hS : 2 ≤ Size) (hW : Size < SIZE_T_MOD)
    (hr : Reachable b) :
    (b.push_back v).empty = false ∧ 1 ≤ (b.push_back v).size ∧
    (b.push_back v).rbegin.deref = some v ∧
    ∃ l : List α, (b.push_back v).toList = some l ∧ l.getLast? = some v := by
  have hinv := hr.inv (by omega)
  have hinv' := inv_push_back hinv v
  have hlt := size_lt hinv hW
  have hlen := length_window hinv hW
  have hsz : 1 ≤ (b.push_back v).size := by
    rw [size_push_back hinv hW]
    split <;> omega
  refine ⟨?_, hsz, ?_, (b.push_back v).window, toList_eq hinv' hW, ?_⟩
  · cases he : (b.push_back v).empty with
    | false => rfl
    | true =>
      have h0 := size_of_empty he
      omega
  · show (b.push_back v).buffer_[(b.push_back v).rbegin.index_]? = some v
    rw [rbegin_push_back hinv hW, push_back_buffer]
    exact List.getElem?_set_self (by rw [hinv.1]; exact hinv.2.1)
  · rw [window_push_back hinv hW]
    by_cases hroom : b.size + 1 < Size
    · rw [if_pos hroom, List.getLast?_concat]
    · rw [if_neg hroom, List.getLast?_drop, List.getLast?_concat,
        if_neg (by simp only [List.length_append, List.length_singleton, hlen]; omega)]

/-- Witness of C22: capacity 3 after pushing 1, 2, 3, then `push_back(4)`,
which overwrites the oldest element. -/
theorem C22_push_back_newest_witness :
    Reachable ((fresh [0, 0, 0] : CircularBuffer Nat 3).pushAll [1, 2, 3]) ∧
    (((fresh [0, 0, 0] : CircularBuffer Nat 3).pushAll [1, 2, 3]).push_back 4).empty
      = false ∧
    1 ≤ (((fresh [0, 0, 0] : CircularBuffer Nat 3).pushAll [1, 2, 3]).push_back 4).size ∧
    (((fresh [0, 0, 0] : CircularBuffer Nat 3).pushAll [1, 2, 3]).push_back 4).rbegin.deref
      = some 4 ∧
    ∃ l : List Nat,
      (((fresh [0, 0, 0] : CircularBuffer Nat 3).pushAll [1, 2, 3]).push_back 4).toList
        = some l ∧ l.getLast? = some 4 :=
  ⟨reachable_pushAll (Reachable.fresh _ rfl) _,
    C22_push_back_newest _ 4 (by decide) (by decide)
      (reachable_pushAll (Reachable.fresh _ rfl) _)⟩

/-- Claim C23: for every state with `head_` and `tail_` below `Size`,
`empty()` is true if and only if `size()` is 0; the branch of `size()` taken
when `head_ < tail_` never yields 0. -/
theorem C23_empty_iff_size_zero {α : Type} {Size : Nat} (b : CircularBuffer α Size)
    (hh : b.head_ < Size) (ht : b.tail_ < Size) (hW : Size < SIZE_T_MOD) :
    (b.empty = true ↔ b.size = 0) ∧ (b.head_ < b.tail_ → 0 < b.size) := by
  have hbranch : b.head_ < b.tail_ → 0 < b.size := by
    intro hlt
    unfold size
    rw [if_neg (by omega), szSub_of_le (by omega) hW, szAdd_of_lt (by omega)]
    omega
  refine ⟨⟨size_of_empty, fun h0 => ?_⟩, hbranch⟩
  rcases Nat.lt_or_ge b.head_ b.tail_ with hlt | hge
  · have := hbranch hlt
    omega
  · have hs : b.size = b.head_ - b.tail_ := by
      unfold size
      rw [if_pos hge, szSub_of_le hge (by omega)]
    have hht : b.head_ = b.tail_ := by omega
    simp [empty, hht]

/-- Witness of C23: capacity 5 with `head_ == 1` and `tail_ == 3`, a state in
the `head_ < tail_` branch, neither empty nor of size 0. -/
theorem C23_empty_iff_size_zero_witness :
    (((⟨[6, 2, 3, 4, 5], 1, 3⟩ : CircularBuffer Nat 5).empty = true ↔
      (⟨[6, 2, 3, 4, 5], 1, 3⟩ : CircularBuffer Nat 5).size = 0) ∧
    ((1 : Nat) < 3 → 0 < (⟨[6, 2, 3, 4, 5], 1, 3⟩ : CircularBuffer Nat 5).size)) ∧
    (⟨[6, 2, 3, 4, 5], 1, 3⟩ : CircularBuffer Nat 5).size = 3 :=
  ⟨C23_empty_iff_size_zero (⟨[6, 2, 3, 4, 5], 1, 3⟩ : CircularBuffer Nat 5)
    (by decide) (by decide) (by decide), by decide⟩

end CXXCircularBuffer
